import Mathlib

/-! # otlp-mosquitto: the telemetry normalisation engine

A shallow embedding of `topics.go` (registry bootstrap, `$SYS` message
dispatch, delta tracking and reset handling) and of `msgqueue.go` (the
queue-statistics poller and the struct translator), followed by the
properties proved about them.

Conventions of the embedding.

* Go `int64` values are `Int`s kept in `[-2^63, 2^63)`; every arithmetic
  result is reduced with `wrapInt64`, as the Go runtime does.  Go `uint64`
  values are `Nat`s reduced with `% 2^64`.
* Go maps are total functions into `Option`; `none` is an absent key.
* The metering API is external.  A handle returned by the meter is recorded
  with the constructor that made it, the name it was created under, the
  ordinal of the creation call and whether its concrete type implements both
  interfaces of its numeric kind; the calls of `Add` are recorded, in order,
  in the field `adds` of the state.
* `strconv.ParseInt(s, 10, 64)` is embedded digit loop and all;
  `strconv.ParseFloat(s, 64)` is a parameter `ParseFloat` of the dispatcher.
-/

namespace Mosquitto

/-! ## Machine integers -/

/-- Two's-complement reduction of an integer into the range of `int64`. -/
def wrapInt64 (x : Int) : Int := (x + 2 ^ 63) % 2 ^ 64 - 2 ^ 63

/-- The Go expression `a - b` on two `int64` operands. -/
def subInt64 (a b : Int) : Int := wrapInt64 (a - b)

/-- The Go conversion `int64(u)` of a `uint64`. -/
def int64OfUint64 (u : Nat) : Int := wrapInt64 (u : Int)

/-- The Go conversion `uint64(i)` of a signed integer. -/
def uint64OfInt (i : Int) : Nat := (i % 2 ^ 64).toNat

/-- Membership in the range of `int64`. -/
def InInt64 (x : Int) : Prop := -2 ^ 63 ≤ x ∧ x < 2 ^ 63

instance (x : Int) : Decidable (InInt64 x) :=
  inferInstanceAs (Decidable (-2 ^ 63 ≤ x ∧ x < 2 ^ 63))

/-! ## strconv.ParseInt -/

/-- The two sentinel errors of `strconv`. -/
inductive NumError where
  | ErrSyntax
  | ErrRange
  deriving DecidableEq, Repr

/-- The largest `uint64`. -/
def maxUint64 : Nat := 2 ^ 64 - 1

/-- The digit loop of `strconv.ParseUint(s, 10, 64)`, run on the characters
still to be read with the accumulator `n`.  The result is Go's pair of a
value and an error. -/
def parseUintLoop : List Char → Nat → Nat × Option NumError
  | [], n => (n, none)
  | c :: cs, n =>
    let b := c.toNat
    if 48 ≤ b ∧ b ≤ 57 then
      let d := b - 48
      -- `cutoff := maxUint64/10 + 1`
      if n ≥ maxUint64 / 10 + 1 then (maxUint64, some .ErrRange)
      else
        let n10 := n * 10 % 2 ^ 64
        let n1 := (n10 + d) % 2 ^ 64
        if n1 < n10 ∨ n1 > maxUint64 then (maxUint64, some .ErrRange)
        else parseUintLoop cs n1
    else
      -- a letter is a digit `≥ 10 = base`; anything else is no digit at all
      (0, some .ErrSyntax)

/-- The library function `strconv.ParseUint(s, 10, 64)`: the empty text is a
syntax error, any other text goes through the digit loop. -/
def ParseUint (s : List Char) : Nat × Option NumError :=
  match s with
  | [] => (0, some .ErrSyntax)
  | _ => parseUintLoop s 0

/-- The library function `strconv.ParseInt(s, 10, 64)`, on the characters of
the text (a byte that is no ASCII digit and a character that is no ASCII digit
are rejected alike): an optional sign, then `ParseUint`, then
the range check against `cutoff = 2^63`. -/
def ParseInt (s : String) : Int × Option NumError :=
  match s.data with
  | [] => (0, some .ErrSyntax)
  | c :: cs =>
    let neg := decide (c = '-')
    let rest := if c = '+' then cs else if c = '-' then cs else c :: cs
    match ParseUint rest with
    | (_, some .ErrSyntax) => (0, some .ErrSyntax)
    | (un, _) =>
      if !neg ∧ un ≥ 2 ^ 63 then (2 ^ 63 - 1, some .ErrRange)
      else if neg ∧ un > 2 ^ 63 then (-2 ^ 63, some .ErrRange)
      else
        let n := int64OfUint64 un
        (if neg then wrapInt64 (-n) else n, none)

/-! ## Instruments, the meter and the shared state -/

/-- The four instrument interfaces the dispatcher switches on. -/
inductive InstrumentKind where
  | Int64UpDownCounter
  | Int64Counter
  | Float64UpDownCounter
  | Float64Counter
  deriving DecidableEq, Repr

/-- The numeric kind of an instrument interface: `true` for the two `int64`
interfaces, `false` for the two `float64` ones. -/
def InstrumentKind.isInteger : InstrumentKind → Bool
  | .Int64UpDownCounter => true
  | .Int64Counter => true
  | .Float64UpDownCounter => false
  | .Float64Counter => false

/-- The counter semantics of an instrument interface: `true` for the two
monotonic `Counter` interfaces, `false` for the two `UpDownCounter` ones. -/
def InstrumentKind.isMonotonic : InstrumentKind → Bool
  | .Int64UpDownCounter => false
  | .Int64Counter => true
  | .Float64UpDownCounter => false
  | .Float64Counter => true

/-- An instrument handle as returned by the meter: the constructor that made
it (`kind`), the name it was created under, the ordinal of the creation call,
which tells two handles apart, and what its concrete type is.  The two
interfaces of one numeric kind differ only in an unexported marker method, so
a concrete type may implement both: `sharedType` is `true` for a handle whose
type implements both interfaces of its numeric kind (the instruments of the
OpenTelemetry SDK meter are of this sort), and `false` for a handle whose type
implements only the interface it was created as.  No type implements an
`int64` and a `float64` interface together: their `Add` methods differ. -/
structure Instrument where
  kind : InstrumentKind
  name : String
  serial : Nat
  sharedType : Bool
  deriving DecidableEq, Repr

/-- Whether the concrete type of the handle implements the interface: the one
it was created as always, and the other one of the same numeric kind when the
type is shared. -/
def Instrument.implements (h : Instrument) (iface : InstrumentKind) : Bool :=
  h.kind == iface || (h.sharedType && h.kind.isInteger == iface.isInteger)

/-- The type switch of `processSys`, `switch instrument.(type)`: the first
case, in the order of the source, whose interface the handle's type
implements, and `none` when there is none (the switch has no default). -/
def typeSwitch (instrument : Instrument) : Option InstrumentKind :=
  if instrument.implements .Int64UpDownCounter then some .Int64UpDownCounter
  else if instrument.implements .Int64Counter then some .Int64Counter
  else if instrument.implements .Float64UpDownCounter then some .Float64UpDownCounter
  else if instrument.implements .Float64Counter then some .Float64Counter
  else none

/-- The meter: how many instruments it has created, the error (if any) with
which each creation call, by ordinal, comes back, and whether the handles it
returns are of a shared type (see `Instrument`).  The variable `meter` and the
function `setupOTelSDK` that installs its provider are declared outside the
files at hand, so the sort of meter is a parameter. -/
structure Meter where
  created : Nat
  failure : Nat → Option String
  sharedType : Bool

/-- One of the calls `meter.Int64UpDownCounter(name)`, `meter.Int64Counter(name)`,
`meter.Float64UpDownCounter(name)`, `meter.Float64Counter(name)`: the new
handle, the error, and the meter afterwards. -/
def Meter.create (m : Meter) (kind : InstrumentKind) (name : String) :
    Instrument × Option String × Meter :=
  (⟨kind, name, m.created, m.sharedType⟩, m.failure m.created,
   { m with created := m.created + 1 })

/-- The argument of a call of `Add`: an `int64` or a `float64`. -/
inductive Number where
  | int (v : Int)
  | float (v : Float)

/-- A call `instrument.Add(ctx, value)`. -/
structure AddCall where
  instrument : Instrument
  value : Number

/-- The package-level variables of `topics.go`, the meter, and the record of
the calls of `Add` made so far (oldest first). -/
structure State where
  instrumentMap : String → Option Instrument
  currentInts : String → Option Int
  currentFloats : String → Option Float
  meter : Meter
  adds : List AddCall

/-- The map assignment `m[k] = v`. -/
def setKey {α : Type} (m : String → Option α) (k : String) (v : α) : String → Option α :=
  fun k' => if k' = k then some v else m k'

/-- The integer arguments of the calls of `Add` made on the handle `h`, in order. -/
def intAddsOn (h : Instrument) : List AddCall → List Int
  | [] => []
  | ⟨i, .int v⟩ :: cs => if i = h then v :: intAddsOn h cs else intAddsOn h cs
  | ⟨_, .float _⟩ :: cs => intAddsOn h cs

/-- The integer arguments of all calls of `Add` on handles that the constructor
`kind` of the meter made, in order. -/
def intAddsOfKind (kind : InstrumentKind) : List AddCall → List Int
  | [] => []
  | ⟨i, .int v⟩ :: cs => if i.kind = kind then v :: intAddsOfKind kind cs else intAddsOfKind kind cs
  | ⟨_, .float _⟩ :: cs => intAddsOfKind kind cs

/-! ## topics.go -/

/-- SysBase is the topic prefix for all Mosquitto SYS messages. -/
def SysBase : String := "$SYS/broker/"

/-- One line `instrumentMap[key], err = meter.X(name)` of the bootstrap: the
handle is stored under `key` and `err` is overwritten with the outcome. -/
def register (acc : (String → Option Instrument) × Option String × Meter)
    (kind : InstrumentKind) (key name : String) :
    (String → Option Instrument) × Option String × Meter :=
  let r := acc.2.2.create kind name
  (setKey acc.1 key r.1, r.2.1, r.2.2)

/-- The bootstrap `initInstruments`, run on the meter `otel.Meter("mosquitto")`:
the state it leaves and the error it returns. -/
def initInstruments (meter : Meter) : State × Option String :=
  let acc : (String → Option Instrument) × Option String × Meter := (fun _ => none, none, meter)
  let acc := register acc .Int64UpDownCounter "clients/connected" "mqtt/clients/connected"
  let acc := register acc .Int64UpDownCounter "clients/disconnected" "mqtt/clients/disconnected"
  let acc := register acc .Int64UpDownCounter "clients/expired" "mqtt/clients/expired"
  let acc := register acc .Int64Counter "clients/maximum" "mqtt/clients/maximum"
  let acc := register acc .Int64UpDownCounter "clients/total" "mqtt/clients/total"
  let acc := register acc .Float64UpDownCounter "load/bytes/received/1min" "mqtt/load/bytes/received/1min"
  let acc := register acc .Float64UpDownCounter "load/bytes/sent/1min" "mqtt/load/bytes/sent/1min"
  let acc := register acc .Float64UpDownCounter "load/messages/received/1min" "mqtt/load/messages/received/1min"
  let acc := register acc .Float64UpDownCounter "load/messages/sent/1min" "mqtt/load/messages/sent/1min"
  let acc := register acc .Float64UpDownCounter "load/publish/dropped/1min" "mqtt/load/publish/dropped/1min"
  let acc := register acc .Float64UpDownCounter "load/publish/received/1min" "mqtt/load/publish/received/1min"
  let acc := register acc .Float64UpDownCounter "load/publish/sent/1min" "mqtt/load/publish/sent/1min"
  let acc := register acc .Float64UpDownCounter "load/sockets/1min" "mqtt/load/sockets/1min"
  let acc := register acc .Float64UpDownCounter "load/connections/1min" "mqtt/load/connections/1min"
  let acc := register acc .Int64UpDownCounter "heap/current" "mqtt/heap/current"
  let acc := register acc .Int64UpDownCounter "heap/maximum" "mqtt/heap/maximum"
  let acc := register acc .Int64UpDownCounter "store/messages/count" "mqtt/store/messages/count"
  let acc := register acc .Int64UpDownCounter "store/messages/bytes" "mqtt/store/messages/bytes"
  let acc := register acc .Int64UpDownCounter "subscriptions/count" "mqtt/subscriptions/count"
  ({ instrumentMap := acc.1, currentInts := fun _ => none, currentFloats := fun _ => none,
     meter := acc.2.2, adds := [] }, acc.2.1)

/-- The meter of the running program when `initInstruments` is first called.
`run` calls `setupOTelSDK` before anything else (main.go), so
`otel.Meter("mosquitto")` is the meter of the OpenTelemetry SDK: its integer
instruments are all of one type and its float instruments of another, each
implementing every instrument interface of its numeric kind, so its handles
are of a shared type.  It has created nothing yet and never reports an
error. -/
def freshMeter : Meter := { created := 0, failure := fun _ => none, sharedType := true }

/-- A meter that returns a handle of a separate type for each constructor, as
the delegating meter of the OpenTelemetry API does while no SDK is installed. -/
def separateMeter : Meter := { created := 0, failure := fun _ => none, sharedType := false }

/-- The state in which message delivery begins: the one left by
`initInstruments` on `freshMeter`. -/
def initState : State := (initInstruments freshMeter).1

/-- The dispatcher `processSys(topic, payload)`: the state afterwards and the
returned error (`none` is Go's `nil`).  `ParseFloat` stands for
`strconv.ParseFloat(s, 64)`.  The four cases are those of the source, in
its order, and `typeSwitch` picks the one that runs. -/
def processSys (ParseFloat : String → Float × Option NumError) (s : State)
    (topic payload : String) : State × Option NumError :=
  match s.instrumentMap topic with
  | none => (s, none)
  | some instrument =>
    match typeSwitch instrument with
    | none => (s, none)
    | some .Int64UpDownCounter =>
      match ParseInt payload with
      | (_, some err) => (s, some err)
      | (value, none) =>
        match s.currentInts topic with
        | none =>
          ({ s with currentInts := setKey s.currentInts topic value,
                    adds := s.adds ++ [⟨instrument, .int value⟩] }, none)
        | some current =>
          ({ s with adds := s.adds ++ [⟨instrument, .int (subInt64 value current)⟩],
                    currentInts := setKey s.currentInts topic value }, none)
    | some .Int64Counter =>
      match ParseInt payload with
      | (_, some err) => (s, some err)
      | (value, none) =>
        match s.currentInts topic with
        | none =>
          ({ s with currentInts := setKey s.currentInts topic value,
                    adds := s.adds ++ [⟨instrument, .int value⟩] }, none)
        | some current =>
          if value < current then
            let r := s.meter.create .Int64Counter topic
            ({ s with currentInts := setKey s.currentInts topic value,
                      instrumentMap := setKey s.instrumentMap topic r.1,
                      meter := r.2.2,
                      adds := s.adds ++ [⟨r.1, .int value⟩] }, none)
          else
            ({ s with adds := s.adds ++ [⟨instrument, .int (subInt64 value current)⟩],
                      currentInts := setKey s.currentInts topic value }, none)
    | some .Float64UpDownCounter =>
      match ParseFloat payload with
      | (_, some err) => (s, some err)
      | (value, none) =>
        match s.currentFloats topic with
        | none =>
          ({ s with currentFloats := setKey s.currentFloats topic value,
                    adds := s.adds ++ [⟨instrument, .float value⟩] }, none)
        | some current =>
          ({ s with adds := s.adds ++ [⟨instrument, .float (value - current)⟩],
                    currentFloats := setKey s.currentFloats topic value }, none)
    | some .Float64Counter =>
      match ParseFloat payload with
      | (_, some err) => (s, some err)
      | (value, none) =>
        match s.currentFloats topic with
        | none =>
          ({ s with currentFloats := setKey s.currentFloats topic value,
                    adds := s.adds ++ [⟨instrument, .float value⟩] }, none)
        | some current =>
          if value < current then
            let r := s.meter.create .Float64Counter topic
            ({ s with currentFloats := setKey s.currentFloats topic value,
                      instrumentMap := setKey s.instrumentMap topic r.1,
                      meter := r.2.2,
                      adds := s.adds ++ [⟨r.1, .float value⟩] }, none)
          else
            ({ s with adds := s.adds ++ [⟨instrument, .float (value - current)⟩],
                      currentFloats := setKey s.currentFloats topic value }, none)

/-- The library function `strings.HasPrefix(s, p)`. -/
def HasPrefix (s p : String) : Bool := p.data.isPrefixOf s.data

/-- The library function `strings.TrimPrefix(s, p)`. -/
def TrimPrefix (s p : String) : String :=
  if HasPrefix s p then ⟨s.data.drop p.data.length⟩ else s

/-- A line written by `handleSys` to the log: the full topic, the payload and the error. -/
structure LogLine where
  topic : String
  payload : String
  err : NumError

/-- The subscription callback `handleSys`: the state afterwards and the line
it logs, if any. -/
def handleSys (ParseFloat : String → Float × Option NumError) (s : State)
    (topic payload : String) : State × Option LogLine :=
  if !HasPrefix topic SysBase then (s, none)
  else
    let topic := TrimPrefix topic SysBase
    let r := processSys ParseFloat s topic payload
    match r.2 with
    | some err => (r.1, some ⟨SysBase ++ topic, payload, err⟩)
    | none => (r.1, none)

/-- Delivery of a sequence of payloads, in order, to one topic. -/
def deliver (ParseFloat : String → Float × Option NumError) (s : State) (topic : String) :
    List String → State
  | [] => s
  | p :: ps => deliver ParseFloat (processSys ParseFloat s topic p).1 topic ps

/-- A run of the dispatcher: the calls `processSys(topic, payload)` for the
messages of the list, in order, whatever their topics. -/
def processAll (ParseFloat : String → Float × Option NumError) (s : State) :
    List (String × String) → State
  | [] => s
  | m :: ms => processAll ParseFloat (processSys ParseFloat s m.1 m.2).1 ms

/-- The 19 keys assigned by `initInstruments`, in the order of the source. -/
def registeredTopics : List String :=
  ["clients/connected", "clients/disconnected", "clients/expired", "clients/maximum",
   "clients/total", "load/bytes/received/1min", "load/bytes/sent/1min",
   "load/messages/received/1min", "load/messages/sent/1min", "load/publish/dropped/1min",
   "load/publish/received/1min", "load/publish/sent/1min", "load/sockets/1min",
   "load/connections/1min", "heap/current", "heap/maximum", "store/messages/count",
   "store/messages/bytes", "subscriptions/count"]

/-- A meter whose creation calls all fail except the last of the bootstrap
(the one with ordinal 18). -/
def lastSucceedsMeter : Meter :=
  { created := 0, failure := fun n => if n = 18 then none else some "instrument creation failed",
    sharedType := true }

/-- A stand-in for `strconv.ParseFloat` that rejects every text, for the
evaluation of runs that only touch integer topics. -/
def rejectFloat : String → Float × Option NumError := fun _ => (0, some .ErrSyntax)

/-! ## msgqueue.go -/

/-- Permission define the Linux permission for a specific queue. -/
structure Permission where
  Key : Nat
  Uid : Nat
  Gid : Nat
  Cuid : Nat
  Cgid : Nat
  Mode : Nat
  pad1 : Nat
  Seq : Nat
  pad2 : Nat
  unused1 : Nat
  unused2 : Nat
  deriving DecidableEq, Repr

/-- A `time.Time`, as the instant it denotes: whole seconds since the Unix
epoch and the nanoseconds within that second. -/
structure Time where
  sec : Int
  nsec : Int
  deriving DecidableEq, Repr

/-- The library function `time.Unix(sec, nsec)`, which accepts `nsec` outside
`[0, 999999999]` and carries it into the seconds (Go's `/` truncates). -/
def Unix (sec nsec : Int) : Time :=
  if nsec < 0 ∨ nsec ≥ 1000000000 then
    let n := Int.tdiv nsec 1000000000
    let sec := wrapInt64 (sec + n)
    let nsec := wrapInt64 (nsec - wrapInt64 (n * 1000000000))
    if nsec < 0 then ⟨wrapInt64 (sec - 1), wrapInt64 (nsec + 1000000000)⟩
    else ⟨sec, nsec⟩
  else ⟨sec, nsec⟩

/-- The method `Time.Nanosecond()`: the nanosecond offset within the second. -/
def Time.Nanosecond (t : Time) : Int := t.nsec

/-- MsqidDS struct type define one of the buffer for MsgctlExtend. -/
structure MsqidDS where
  MsgPerm : Permission
  MsgStime : Time
  MsgRtime : Time
  MsgCtime : Time
  MsgCbytes : Nat
  MsgQnum : Nat
  MsgQbytes : Nat
  MsglSpid : Nat
  MsglRpid : Nat
  deriving DecidableEq, Repr

/-- The raw record `msqidds`; an `ipctime` is a `uint64`. -/
structure msqidds where
  msgPerm : Permission
  msgStime : Nat
  msgRtime : Nat
  msgCtime : Nat
  msgCbytes : Nat
  msgQnum : Nat
  msgQbytes : Nat
  msglSpid : Nat
  msglRpid : Nat
  unused : List Nat
  deriving DecidableEq, Repr

/-- The zero value of `Permission`. -/
def Permission.zero : Permission := ⟨0, 0, 0, 0, 0, 0, 0, 0, 0, 0, 0⟩

/-- The zero value of `time.Time`: 1 January of year 1, 00:00:00 UTC. -/
def Time.zero : Time := ⟨-62135596800, 0⟩

/-- The zero value `MsqidDS{}`. -/
def MsqidDS.zero : MsqidDS :=
  ⟨Permission.zero, Time.zero, Time.zero, Time.zero, 0, 0, 0, 0, 0⟩

/-- The zero value of `msqidds` (`var realBuffer msqidds`). -/
def msqidds.zero : msqidds :=
  ⟨Permission.zero, 0, 0, 0, 0, 0, 0, 0, 0, [0, 0, 0, 0, 0, 0, 0, 0]⟩

/-- The method `(m *msqidds) convertBuffer(r *MsqidDS)`, from private to
public data; the result is `*r` afterwards. -/
def msqidds.convertBuffer (m : msqidds) (r : MsqidDS) : MsqidDS :=
  { r with
    MsgPerm := m.msgPerm
    MsgStime := Unix 0 (int64OfUint64 m.msgStime)
    MsgRtime := Unix 0 (int64OfUint64 m.msgRtime)
    MsgCtime := Unix 0 (int64OfUint64 m.msgCtime)
    MsgCbytes := m.msgCbytes
    MsgQnum := m.msgQnum
    MsgQbytes := m.msgQbytes
    MsglSpid := m.msglSpid
    MsglRpid := m.msglRpid }

/-- The method `(m *MsqidDS) convertBuffer(r *msqidds)`, from public to
private data; the result is `*r` afterwards. -/
def MsqidDS.convertBuffer (m : MsqidDS) (r : msqidds) : msqidds :=
  { r with
    msgPerm := m.MsgPerm
    msgStime := uint64OfInt m.MsgStime.Nanosecond
    msgRtime := uint64OfInt m.MsgRtime.Nanosecond
    msgCtime := uint64OfInt m.MsgCtime.Nanosecond
    msgCbytes := m.MsgCbytes
    msgQnum := m.MsgQnum
    msgQbytes := m.MsgQbytes
    msglSpid := m.MsglSpid
    msglRpid := m.MsglRpid }

/-- Decoding a raw record and encoding the result again, both into zero-valued
destinations. -/
def roundTrip (m : msqidds) : msqidds :=
  (m.convertBuffer MsqidDS.zero).convertBuffer msqidds.zero

/-- What one `msgctl(0, MSG_STAT, &realBuffer)` system call leaves behind: the
error number (`0` on success) and the contents of `realBuffer`, which was
zero-valued before the call. -/
structure Msgctl where
  errno : Nat
  realBuffer : msqidds
  deriving DecidableEq, Repr

/-- A successful query reporting `q` queued messages. -/
def Msgctl.success (q : Nat) : Msgctl := ⟨0, { msqidds.zero with msgQnum := q }⟩

/-- A failed query: the error number is not zero and the kernel wrote nothing. -/
def Msgctl.failed (errno : Nat) : Msgctl := ⟨errno, msqidds.zero⟩

/-- The package-level variable `msgQueueNum`, with the record of the values
passed to `msgQueueCounter.Add` (oldest first) and of the error numbers logged. -/
structure Poller where
  msgQueueNum : Int
  adds : List Int
  logged : List Nat
  deriving DecidableEq, Repr

/-- The poller when its goroutine starts: `msgQueueNum` has its zero value. -/
def Poller.start : Poller := ⟨0, [], []⟩

/-- One tick of the loop of `msgQueue`, given the outcome of the system call. -/
def msgQueueTick (p : Poller) (call : Msgctl) : Poller :=
  let convertedBuffer := MsqidDS.zero
  let realBuffer := call.realBuffer
  let p := if call.errno ≠ 0 then { p with logged := p.logged ++ [call.errno] } else p
  let convertedBuffer := realBuffer.convertBuffer convertedBuffer
  { p with
    adds := p.adds ++ [subInt64 (int64OfUint64 convertedBuffer.MsgQnum) p.msgQueueNum]
    msgQueueNum := int64OfUint64 convertedBuffer.MsgQnum }

/-- The loop of `msgQueue` over the ticks of a run, given the outcome of the
system call at each tick. -/
def msgQueue (p : Poller) (calls : List Msgctl) : Poller :=
  calls.foldl msgQueueTick p

/-! ## Arithmetic of `int64` -/

theorem wrapInt64_inInt64 (x : Int) : InInt64 (wrapInt64 x) := by
  unfold InInt64 wrapInt64
  constructor <;> omega

theorem wrapInt64_eq_self {x : Int} (h : InInt64 x) : wrapInt64 x = x := by
  unfold InInt64 at h
  unfold wrapInt64
  omega

theorem wrapInt64_eq_self_iff (x : Int) : wrapInt64 x = x ↔ InInt64 x :=
  ⟨fun h => h ▸ wrapInt64_inInt64 x, wrapInt64_eq_self⟩

theorem wrapInt64_modEq (x : Int) : wrapInt64 x ≡ x [ZMOD 2 ^ 64] := by
  unfold Int.ModEq wrapInt64
  omega

theorem wrapInt64_congr {x y : Int} (h : x ≡ y [ZMOD 2 ^ 64]) : wrapInt64 x = wrapInt64 y := by
  unfold Int.ModEq at h
  unfold wrapInt64
  omega

/-! ## The result of `ParseInt` -/

theorem ParseInt_inInt64 {s : String} {v : Int} (h : ParseInt s = (v, none)) : InInt64 v := by
  unfold ParseInt at h
  split at h
  · simp at h
  · simp only at h
    split at h
    · simp at h
    · split at h
      · simp at h
      · split at h
        · simp at h
        · simp only [Prod.mk.injEq, and_true] at h
          rw [← h]
          split
          · exact wrapInt64_inInt64 _
          · exact wrapInt64_inInt64 _

/-! ## The type switch -/

/-- The case of the type switch that runs, in closed form: the `UpDownCounter`
case of the handle's numeric kind, unless the handle was created as a
`Counter` and its type implements nothing else. -/
theorem typeSwitch_eq (i : Instrument) :
    typeSwitch i = some
      (if i.kind.isInteger = true then
        (if i.kind = .Int64UpDownCounter ∨ i.sharedType = true then .Int64UpDownCounter
         else .Int64Counter)
       else
        (if i.kind = .Float64UpDownCounter ∨ i.sharedType = true then .Float64UpDownCounter
         else .Float64Counter)) := by
  obtain ⟨k, n, ser, b⟩ := i
  cases k <;> cases b <;> rfl

theorem typeSwitch_updown (i : Instrument) (hk : i.kind = .Int64UpDownCounter) :
    typeSwitch i = some .Int64UpDownCounter := by
  obtain ⟨k, n, ser, b⟩ := i
  simp only at hk
  subst hk
  cases b <;> rfl

theorem typeSwitch_shared_int (i : Instrument) (hk : i.kind.isInteger = true)
    (hs : i.sharedType = true) : typeSwitch i = some .Int64UpDownCounter := by
  obtain ⟨k, n, ser, b⟩ := i
  simp only at hs
  subst hs
  cases k <;> first | rfl | exact absurd hk (by simp [InstrumentKind.isInteger])

theorem typeSwitch_counter (i : Instrument) (hk : i.kind = .Int64Counter)
    (hs : i.sharedType = false) : typeSwitch i = some .Int64Counter := by
  obtain ⟨k, n, ser, b⟩ := i
  simp only at hk hs
  subst hk hs
  rfl

theorem typeSwitch_float_updown (i : Instrument) (hk : i.kind = .Float64UpDownCounter) :
    typeSwitch i = some .Float64UpDownCounter := by
  obtain ⟨k, n, ser, b⟩ := i
  simp only at hk
  subst hk
  cases b <;> rfl

theorem typeSwitch_shared_float (i : Instrument) (hk : i.kind.isInteger = false)
    (hs : i.sharedType = true) : typeSwitch i = some .Float64UpDownCounter := by
  obtain ⟨k, n, ser, b⟩ := i
  simp only at hs
  subst hs
  cases k <;> first | rfl | exact absurd hk (by simp [InstrumentKind.isInteger])

theorem typeSwitch_float_counter (i : Instrument) (hk : i.kind = .Float64Counter)
    (hs : i.sharedType = false) : typeSwitch i = some .Float64Counter := by
  obtain ⟨k, n, ser, b⟩ := i
  simp only at hk hs
  subst hk hs
  rfl

/-- A handle made by an integer constructor takes one of the two integer cases. -/
theorem typeSwitch_int (i : Instrument)
    (hk : i.kind = .Int64UpDownCounter ∨ i.kind = .Int64Counter) :
    typeSwitch i = some .Int64UpDownCounter ∨ typeSwitch i = some .Int64Counter := by
  obtain ⟨k, n, ser, b⟩ := i
  simp only at hk
  rcases hk with hk | hk <;> subst hk <;> cases b <;> first | exact Or.inl rfl | exact Or.inr rfl

/-- A handle made by a float constructor takes one of the two float cases. -/
theorem typeSwitch_float (i : Instrument)
    (hk : i.kind = .Float64UpDownCounter ∨ i.kind = .Float64Counter) :
    typeSwitch i = some .Float64UpDownCounter ∨ typeSwitch i = some .Float64Counter := by
  obtain ⟨k, n, ser, b⟩ := i
  simp only at hk
  rcases hk with hk | hk <;> subst hk <;> cases b <;> first | exact Or.inl rfl | exact Or.inr rfl

/-- What the case that runs tells about the handle: the numeric kind is that
of the handle, and a `Counter` case runs only for a handle created as that
`Counter` whose type implements nothing else. -/
theorem typeSwitch_spec (i : Instrument) (k : InstrumentKind) (h : typeSwitch i = some k) :
    k.isInteger = i.kind.isInteger ∧
    (k.isMonotonic = true → i.kind = k ∧ i.sharedType = false) := by
  obtain ⟨k0, n, ser, b⟩ := i
  rw [typeSwitch_eq] at h
  cases k0 <;> cases b <;>
    simp [InstrumentKind.isInteger] at h <;> subst h <;>
    simp [InstrumentKind.isInteger, InstrumentKind.isMonotonic]

theorem typeSwitch_ne_none (i : Instrument) : typeSwitch i ≠ none := by
  rw [typeSwitch_eq]
  exact Option.some_ne_none _

theorem isInteger_true_iff (k : InstrumentKind) :
    k.isInteger = true ↔ k = .Int64UpDownCounter ∨ k = .Int64Counter := by
  cases k <;> decide

theorem isInteger_false_iff (k : InstrumentKind) :
    k.isInteger = false ↔ k = .Float64UpDownCounter ∨ k = .Float64Counter := by
  cases k <;> decide

/-! ## One call of `processSys`, branch by branch -/

section Steps

variable (ParseFloat : String → Float × Option NumError)

theorem step_unknown (s : State) (topic payload : String)
    (h : s.instrumentMap topic = none) :
    processSys ParseFloat s topic payload = (s, none) := by
  simp [processSys, h]

theorem step_int_error (s : State) (topic payload : String) (i : Instrument) (x : Int)
    (err : NumError) (hi : s.instrumentMap topic = some i)
    (hts : typeSwitch i = some .Int64UpDownCounter ∨ typeSwitch i = some .Int64Counter)
    (hp : ParseInt payload = (x, some err)) :
    processSys ParseFloat s topic payload = (s, some err) := by
  rcases hts with hts | hts <;> simp [processSys, hi, hts, hp]

theorem step_float_error (s : State) (topic payload : String) (i : Instrument) (x : Float)
    (err : NumError) (hi : s.instrumentMap topic = some i)
    (hts : typeSwitch i = some .Float64UpDownCounter ∨ typeSwitch i = some .Float64Counter)
    (hp : ParseFloat payload = (x, some err)) :
    processSys ParseFloat s topic payload = (s, some err) := by
  rcases hts with hts | hts <;> simp [processSys, hi, hts, hp]

theorem step_int_first (s : State) (topic payload : String) (i : Instrument) (v : Int)
    (hi : s.instrumentMap topic = some i)
    (hts : typeSwitch i = some .Int64UpDownCounter ∨ typeSwitch i = some .Int64Counter)
    (hc : s.currentInts topic = none) (hp : ParseInt payload = (v, none)) :
    processSys ParseFloat s topic payload =
      ({ s with currentInts := setKey s.currentInts topic v,
                adds := s.adds ++ [⟨i, .int v⟩] }, none) := by
  rcases hts with hts | hts <;> simp [processSys, hi, hts, hp, hc]

/-- The first case of the switch on a topic that has a last value: the wrapped
difference goes to the handle of the registry. -/
theorem step_updown (s : State) (topic payload : String) (i : Instrument) (c v : Int)
    (hi : s.instrumentMap topic = some i) (hts : typeSwitch i = some .Int64UpDownCounter)
    (hc : s.currentInts topic = some c) (hp : ParseInt payload = (v, none)) :
    processSys ParseFloat s topic payload =
      ({ s with adds := s.adds ++ [⟨i, .int (subInt64 v c)⟩],
                currentInts := setKey s.currentInts topic v }, none) := by
  simp [processSys, hi, hts, hp, hc]

/-- The second case of the switch on a value below the last one: a new handle
is created under the topic and receives the value. -/
theorem step_counter_reset (s : State) (topic payload : String) (i : Instrument) (c v : Int)
    (hi : s.instrumentMap topic = some i) (hts : typeSwitch i = some .Int64Counter)
    (hc : s.currentInts topic = some c) (hp : ParseInt payload = (v, none)) (hlt : v < c) :
    processSys ParseFloat s topic payload =
      ({ s with currentInts := setKey s.currentInts topic v,
                instrumentMap :=
                  setKey s.instrumentMap topic ⟨.Int64Counter, topic, s.meter.created, s.meter.sharedType⟩,
                meter := { s.meter with created := s.meter.created + 1 },
                adds := s.adds ++ [⟨⟨.Int64Counter, topic, s.meter.created, s.meter.sharedType⟩, .int v⟩] },
       none) := by
  simp [processSys, hi, hts, hp, hc, hlt, Meter.create]

theorem step_counter_forward (s : State) (topic payload : String) (i : Instrument) (c v : Int)
    (hi : s.instrumentMap topic = some i) (hts : typeSwitch i = some .Int64Counter)
    (hc : s.currentInts topic = some c) (hp : ParseInt payload = (v, none)) (hle : c ≤ v) :
    processSys ParseFloat s topic payload =
      ({ s with adds := s.adds ++ [⟨i, .int (subInt64 v c)⟩],
                currentInts := setKey s.currentInts topic v }, none) := by
  have : ¬ v < c := not_lt.mpr hle
  simp [processSys, hi, hts, hp, hc, this]

end Steps

theorem setKey_same {α : Type} (m : String → Option α) (k : String) (v : α) :
    setKey m k v k = some v := by
  simp [setKey]

theorem setKey_other {α : Type} (m : String → Option α) (k k' : String) (v : α)
    (h : k' ≠ k) : setKey m k v k' = m k' := by
  simp [setKey, h]

theorem intAddsOn_append (h : Instrument) (xs ys : List AddCall) :
    intAddsOn h (xs ++ ys) = intAddsOn h xs ++ intAddsOn h ys := by
  induction xs with
  | nil => rfl
  | cons a as ih =>
    obtain ⟨i, val⟩ := a
    cases val with
    | int v =>
      by_cases hih : i = h
      · simp [intAddsOn, hih, ih]
      · simp [intAddsOn, hih, ih]
    | float v => simpa [intAddsOn] using ih

theorem intAddsOfKind_append (k : InstrumentKind) (xs ys : List AddCall) :
    intAddsOfKind k (xs ++ ys) = intAddsOfKind k xs ++ intAddsOfKind k ys := by
  induction xs with
  | nil => rfl
  | cons a as ih =>
    obtain ⟨i, val⟩ := a
    cases val with
    | int v =>
      by_cases hih : i.kind = k
      · simp [intAddsOfKind, hih, ih]
      · simp [intAddsOfKind, hih, ih]
    | float v => simpa [intAddsOfKind] using ih

/-! ## Delivery of a sequence to a bidirectional integer topic -/

section Bidirectional

variable (ParseFloat : String → Float × Option NumError)

theorem deliver_append (s : State) (topic : String) (ps qs : List String) :
    deliver ParseFloat s topic (ps ++ qs) =
      deliver ParseFloat (deliver ParseFloat s topic ps) topic qs := by
  induction ps generalizing s with
  | nil => rfl
  | cons p ps ih => simp [deliver, ih]

theorem ParseInt_eta {p : String} (h : (ParseInt p).2 = none) :
    ParseInt p = ((ParseInt p).1, none) :=
  Prod.ext rfl h

/-- The facts about one successful step on a topic whose handle takes the
first case of the switch: the registry is untouched, the value becomes the
last value, and the amount by which the running total of the handle exceeds
the last value changes by a multiple of `2^64`, and not at all when the
difference fits in an `int64`. -/
theorem updown_step_facts (s : State) (topic p : String) (i : Instrument) (v : Int)
    (hi : s.instrumentMap topic = some i) (hts : typeSwitch i = some .Int64UpDownCounter)
    (hp : ParseInt p = (v, none)) :
    (processSys ParseFloat s topic p).1.instrumentMap = s.instrumentMap ∧
    (processSys ParseFloat s topic p).1.currentInts topic = some v ∧
    ((intAddsOn i (processSys ParseFloat s topic p).1.adds).sum - v
        ≡ (intAddsOn i s.adds).sum - (s.currentInts topic).getD 0 [ZMOD 2 ^ 64]) ∧
    (InInt64 (v - (s.currentInts topic).getD 0) →
      (intAddsOn i (processSys ParseFloat s topic p).1.adds).sum - v
        = (intAddsOn i s.adds).sum - (s.currentInts topic).getD 0) := by
  cases hc : s.currentInts topic with
  | none =>
    rw [step_int_first ParseFloat s topic p i v hi (Or.inl hts) hc hp]
    refine ⟨rfl, setKey_same _ _ _, ?_, ?_⟩
    · simp [intAddsOn_append, intAddsOn, Int.ModEq]
    · intro _
      simp [intAddsOn_append, intAddsOn]
  | some c =>
    rw [step_updown ParseFloat s topic p i c v hi hts hc hp]
    refine ⟨rfl, setKey_same _ _ _, ?_, ?_⟩
    · have h1 := wrapInt64_modEq (v - c)
      simp only [intAddsOn_append, intAddsOn, List.sum_append, List.sum_cons, List.sum_nil,
        if_true, subInt64, Option.getD_some, add_zero]
      have h2 : (intAddsOn i s.adds).sum + wrapInt64 (v - c) - v
          ≡ (intAddsOn i s.adds).sum + (v - c) - v [ZMOD 2 ^ 64] :=
        (Int.ModEq.add_left _ h1).sub_right _
      have h3 : (intAddsOn i s.adds).sum + (v - c) - v = (intAddsOn i s.adds).sum - c := by ring
      rw [h3] at h2
      exact h2
    · intro hr
      simp only [Option.getD_some] at hr
      simp only [intAddsOn_append, intAddsOn, List.sum_append, List.sum_cons, List.sum_nil,
        if_true, subInt64, Option.getD_some, add_zero, wrapInt64_eq_self hr]
      ring

theorem updown_deliver_facts (topic : String) (i : Instrument)
    (hts : typeSwitch i = some .Int64UpDownCounter) (ps : List String) :
    ∀ s : State, s.instrumentMap topic = some i →
    (∀ p ∈ ps, (ParseInt p).2 = none) →
    (deliver ParseFloat s topic ps).instrumentMap = s.instrumentMap ∧
    ((intAddsOn i (deliver ParseFloat s topic ps).adds).sum
          - ((deliver ParseFloat s topic ps).currentInts topic).getD 0
        ≡ (intAddsOn i s.adds).sum - (s.currentInts topic).getD 0 [ZMOD 2 ^ 64]) ∧
    (List.Chain (fun a b => InInt64 (b - a)) ((s.currentInts topic).getD 0)
        (ps.map fun p => (ParseInt p).1) →
      (intAddsOn i (deliver ParseFloat s topic ps).adds).sum
          - ((deliver ParseFloat s topic ps).currentInts topic).getD 0
        = (intAddsOn i s.adds).sum - (s.currentInts topic).getD 0) := by
  induction ps with
  | nil =>
    intro s _ _
    exact ⟨rfl, Int.ModEq.refl _, fun _ => rfl⟩
  | cons p ps ih =>
    intro s hi hall
    have hp := ParseInt_eta (hall p (List.mem_cons_self _ _))
    obtain ⟨hmap, hcur, hmod, hex⟩ := updown_step_facts ParseFloat s topic p i _ hi hts hp
    have hi1 : (processSys ParseFloat s topic p).1.instrumentMap topic = some i := by
      rw [hmap]; exact hi
    obtain ⟨imap, imod, iex⟩ :=
      ih (processSys ParseFloat s topic p).1 hi1 (fun q hq => hall q (List.mem_cons_of_mem _ hq))
    simp only [hcur, Option.getD_some] at imod iex
    refine ⟨by simp only [deliver]; rw [imap, hmap], ?_, ?_⟩
    · simp only [deliver]
      exact imod.trans hmod
    · intro hchain
      simp only [List.map_cons, List.chain_cons] at hchain
      simp only [deliver]
      rw [iex hchain.2, hex hchain.1]

/-- After a non-empty sequence of parsable payloads on a topic whose handle
takes the first case of the switch, the last value of the topic is the value
of the last payload. -/
theorem updown_deliver_last (s : State) (topic : String) (i : Instrument)
    (hi : s.instrumentMap topic = some i) (hts : typeSwitch i = some .Int64UpDownCounter)
    (ps : List String) (hne : ps ≠ []) (hall : ∀ p ∈ ps, (ParseInt p).2 = none) :
    (deliver ParseFloat s topic ps).currentInts topic = some (ParseInt (ps.getLast hne)).1 := by
  have hlast : (ParseInt (ps.getLast hne)).2 = none := hall _ (List.getLast_mem hne)
  have hsplit : ps = ps.dropLast ++ [ps.getLast hne] := (List.dropLast_append_getLast hne).symm
  have hinit := updown_deliver_facts ParseFloat topic i hts ps.dropLast s hi
    (fun p hp => hall p (List.mem_of_mem_dropLast hp))
  have hi1 : (deliver ParseFloat s topic ps.dropLast).instrumentMap topic = some i := by
    rw [hinit.1]; exact hi
  have hstep := updown_step_facts ParseFloat _ topic (ps.getLast hne) i _ hi1 hts
    (ParseInt_eta hlast)
  have hd : deliver ParseFloat s topic ps
      = (processSys ParseFloat (deliver ParseFloat s topic ps.dropLast)
          topic (ps.getLast hne)).1 := by
    conv_lhs => rw [hsplit]
    rw [deliver_append]
    rfl
  rw [hd]
  exact hstep.2.1

end Bidirectional

/-! ## The telescoping sum on a bidirectional topic -/

/-- C1, as stated, fails: on the bidirectional topic "clients/connected" the
payloads "-9223372036854775808" and "9223372036854775807" both parse, the
values passed to `Add` are `-2^63` and `-1`, and their sum is not the last
value `2^63 - 1`. -/
theorem telescoping_sum_exact_counterexample :
    (ParseInt "-9223372036854775808").2 = none ∧
    (ParseInt "9223372036854775807").2 = none ∧
    initState.instrumentMap "clients/connected"
      = some ⟨.Int64UpDownCounter, "mqtt/clients/connected", 0, true⟩ ∧
    intAddsOn ⟨.Int64UpDownCounter, "mqtt/clients/connected", 0, true⟩
        (deliver rejectFloat initState "clients/connected"
          ["-9223372036854775808", "9223372036854775807"]).adds
      = [-9223372036854775808, -1] ∧
    (intAddsOn ⟨.Int64UpDownCounter, "mqtt/clients/connected", 0, true⟩
        (deliver rejectFloat initState "clients/connected"
          ["-9223372036854775808", "9223372036854775807"]).adds).sum
      ≠ (ParseInt "9223372036854775807").1 := by
  decide

/-- C1, amended: for every non-empty sequence of payloads that all parse as
`int64`, delivered in order to one `Int64UpDownCounter` topic from the state
left by `initInstruments`, the sum of the values passed to the `Add` of the
topic's handle, reduced modulo `2^64` into the `int64` range, is the last
value `vn`; `currentInts[topic]` is `vn` afterwards; and the sum is `vn`
exactly whenever each difference of two consecutive values fits in an `int64`. -/
theorem telescoping_sum_bidirectional (ParseFloat : String → Float × Option NumError)
    (m : Meter) (topic : String) (i : Instrument)
    (hi : (initInstruments m).1.instrumentMap topic = some i)
    (hk : i.kind = .Int64UpDownCounter)
    (ps : List String) (hne : ps ≠ [])
    (hall : ∀ p ∈ ps, (ParseInt p).2 = none) :
    wrapInt64 (intAddsOn i (deliver ParseFloat (initInstruments m).1 topic ps).adds).sum
      = (ParseInt (ps.getLast hne)).1 ∧
    (deliver ParseFloat (initInstruments m).1 topic ps).currentInts topic
      = some (ParseInt (ps.getLast hne)).1 ∧
    (List.Chain' (fun a b => InInt64 (b - a)) (ps.map fun p => (ParseInt p).1) →
      (intAddsOn i (deliver ParseFloat (initInstruments m).1 topic ps).adds).sum
        = (ParseInt (ps.getLast hne)).1) := by
  have hlast : (ParseInt (ps.getLast hne)).2 = none := hall _ (List.getLast_mem hne)
  have hcur : (deliver ParseFloat (initInstruments m).1 topic ps).currentInts topic
      = some (ParseInt (ps.getLast hne)).1 := by
    have hsplit : ps = ps.dropLast ++ [ps.getLast hne] := (List.dropLast_append_getLast hne).symm
    have hinit := updown_deliver_facts ParseFloat topic i (typeSwitch_updown i hk) ps.dropLast
      (initInstruments m).1 hi (fun p hp => hall p (List.mem_of_mem_dropLast hp))
    have hi1 : (deliver ParseFloat (initInstruments m).1 topic ps.dropLast).instrumentMap topic
        = some i := by rw [hinit.1]; exact hi
    have hstep := updown_step_facts ParseFloat _ topic (ps.getLast hne) i _ hi1
      (typeSwitch_updown i hk) (ParseInt_eta hlast)
    have hd : deliver ParseFloat (initInstruments m).1 topic ps
        = (processSys ParseFloat (deliver ParseFloat (initInstruments m).1 topic ps.dropLast)
            topic (ps.getLast hne)).1 := by
      conv_lhs => rw [hsplit]
      rw [deliver_append]
      rfl
    rw [hd]
    exact hstep.2.1
  obtain ⟨_, hmod, hex⟩ := updown_deliver_facts ParseFloat topic i (typeSwitch_updown i hk) ps
    (initInstruments m).1 hi hall
  rw [hcur] at hmod hex
  have h0 : (intAddsOn i (initInstruments m).1.adds).sum
      - ((initInstruments m).1.currentInts topic).getD 0 = 0 := rfl
  rw [h0] at hmod hex
  simp only [Option.getD_some] at hmod hex
  refine ⟨?_, hcur, ?_⟩
  · have h1 : (intAddsOn i (deliver ParseFloat (initInstruments m).1 topic ps).adds).sum
        ≡ (ParseInt (ps.getLast hne)).1 [ZMOD 2 ^ 64] := by
      have := hmod.add_right (ParseInt (ps.getLast hne)).1
      simpa using this
    rw [wrapInt64_congr h1]
    exact wrapInt64_eq_self (ParseInt_inInt64 (ParseInt_eta hlast))
  · intro hchain
    have hc0 : List.Chain (fun a b => InInt64 (b - a))
        (((initInstruments m).1.currentInts topic).getD 0) (ps.map fun p => (ParseInt p).1) := by
      cases ps with
      | nil => exact absurd rfl hne
      | cons p ps =>
        simp only [List.map_cons, List.chain_cons]
        refine ⟨?_, hchain⟩
        have hp := ParseInt_inInt64 (ParseInt_eta (hall p (List.mem_cons_self _ _)))
        have hz : ((initInstruments m).1.currentInts topic).getD 0 = 0 := rfl
        rw [hz]
        simpa using hp
    have := hex hc0
    omega

/-- The example of C1: "5","8","8","3" on "clients/connected" all parse, the
consecutive differences fit, the values passed to `Add` are `+5, +3, +0, -5`,
and their sum is `3`, the last value. -/
theorem telescoping_sum_bidirectional_witness :
    intAddsOn ⟨.Int64UpDownCounter, "mqtt/clients/connected", 0, true⟩
        (deliver rejectFloat (initInstruments freshMeter).1 "clients/connected"
          ["5", "8", "8", "3"]).adds = [5, 3, 0, -5] ∧
    (ParseInt "3").1 = 3 ∧
    (intAddsOn ⟨.Int64UpDownCounter, "mqtt/clients/connected", 0, true⟩
        (deliver rejectFloat (initInstruments freshMeter).1 "clients/connected"
          ["5", "8", "8", "3"]).adds).sum = (ParseInt "3").1 ∧
    (deliver rejectFloat (initInstruments freshMeter).1 "clients/connected"
          ["5", "8", "8", "3"]).currentInts "clients/connected" = some (ParseInt "3").1 := by
  have h := telescoping_sum_bidirectional rejectFloat freshMeter "clients/connected"
    ⟨.Int64UpDownCounter, "mqtt/clients/connected", 0, true⟩ (by decide) rfl
    ["5", "8", "8", "3"] (by decide) (by decide)
  refine ⟨by decide, by decide, h.2.2 ?_, h.2.1⟩
  simp only [List.map, List.chain'_cons, List.chain'_singleton, and_true]
  decide

/-! ## Monotonic integer topics -/

/-- C2 fails on the code.  The handle that `initInstruments` stores under
"clients/maximum" was created by `meter.Int64Counter`, but its type also
implements `metric.Int64UpDownCounter`, and that case comes first in the type
switch, so the case with the reset never runs.  After "10","12","12" the last
value is `12`; the payload "7" parses to `7 < 12`, and `processSys` creates
nothing, leaves the bootstrap handle in `instrumentMap`, and calls `Add` on
that handle with `-5`: the four calls of `Add` of the run are all on the
bootstrap handle, with `+10, +2, +0, -5`. -/
theorem monotonic_reset_not_reached :
    initState.instrumentMap "clients/maximum"
      = some ⟨.Int64Counter, "mqtt/clients/maximum", 3, true⟩ ∧
    typeSwitch ⟨.Int64Counter, "mqtt/clients/maximum", 3, true⟩ = some .Int64UpDownCounter ∧
    (deliver rejectFloat initState "clients/maximum" ["10", "12", "12"]).currentInts
        "clients/maximum" = some 12 ∧
    ParseInt "7" = (7, none) ∧
    (deliver rejectFloat initState "clients/maximum" ["10", "12", "12", "7"]).instrumentMap
        "clients/maximum" = some ⟨.Int64Counter, "mqtt/clients/maximum", 3, true⟩ ∧
    (deliver rejectFloat initState "clients/maximum" ["10", "12", "12", "7"]).meter.created
      = initState.meter.created ∧
    (deliver rejectFloat initState "clients/maximum" ["10", "12", "12", "7"]).adds.length = 4 ∧
    intAddsOn ⟨.Int64Counter, "mqtt/clients/maximum", 3, true⟩
        (deliver rejectFloat initState "clients/maximum" ["10", "12", "12", "7"]).adds
      = [10, 2, 0, -5] ∧
    (deliver rejectFloat initState "clients/maximum" ["10", "12", "12", "7"]).currentInts
        "clients/maximum" = some 7 := by
  decide

/-- C3 fails on the code.  The payloads "10","12","12","7" all parse and none
is negative, yet on the monotonic topic "clients/maximum" the values passed to
the `Add` of the handle created by `meter.Int64Counter` are `10, 2, 0, -5`:
the decrease from `12` to `7` reaches the monotonic instrument as `-5`, because
the first case of the type switch runs for this handle and the case that
guards against a decrease does not. -/
theorem negative_delta_reaches_counter :
    (∀ p ∈ ["10", "12", "12", "7"], (ParseInt p).2 = none ∧ 0 ≤ (ParseInt p).1) ∧
    initState.instrumentMap "clients/maximum"
      = some ⟨.Int64Counter, "mqtt/clients/maximum", 3, true⟩ ∧
    intAddsOfKind .Int64Counter
        (deliver rejectFloat initState "clients/maximum" ["10", "12", "12", "7"]).adds
      = [10, 2, 0, -5] ∧
    ¬ (∀ v ∈ intAddsOfKind .Int64Counter
        (deliver rejectFloat initState "clients/maximum" ["10", "12", "12", "7"]).adds, 0 ≤ v) := by
  decide

/-- The reset, where it is reached.  Under a meter whose handles are of
separate types the handle of "clients/maximum" takes the second case of the
switch, and "10","12","12","7" pass `+10, +2, +0` to the bootstrap handle and
then `7` to a new handle, created under the bare topic. -/
theorem reset_with_separate_types :
    typeSwitch ⟨.Int64Counter, "mqtt/clients/maximum", 3, false⟩ = some .Int64Counter ∧
    (deliver rejectFloat (initInstruments separateMeter).1 "clients/maximum"
        ["10", "12", "12", "7"]).instrumentMap "clients/maximum"
      = some ⟨.Int64Counter, "clients/maximum", 19, false⟩ ∧
    intAddsOn ⟨.Int64Counter, "mqtt/clients/maximum", 3, false⟩
        (deliver rejectFloat (initInstruments separateMeter).1 "clients/maximum"
          ["10", "12", "12", "7"]).adds = [10, 2, 0] ∧
    intAddsOn ⟨.Int64Counter, "clients/maximum", 19, false⟩
        (deliver rejectFloat (initInstruments separateMeter).1 "clients/maximum"
          ["10", "12", "12", "7"]).adds = [7] := by
  decide

/-! ## The poller -/

/-- C4 fails on the code: `msgQueue` logs a failed query and then carries on
with the tick.  On the ticks success(10), failed, failed, success(42), with
the buffer left zero-valued by a failed query, the values passed to
`msgQueueCounter.Add` are `+10, -10, 0, +42` (not `+10, +32`), and
`msgQueueNum` is `0` (not `10`) after the first failed tick. -/
theorem msgQueue_failed_query_not_skipped :
    (Msgctl.failed 22).errno ≠ 0 ∧
    (msgQueue Poller.start
      [Msgctl.success 10, Msgctl.failed 22, Msgctl.failed 22, Msgctl.success 42]).adds
      = [10, -10, 0, 42] ∧
    (msgQueue Poller.start [Msgctl.success 10]).msgQueueNum = 10 ∧
    (msgQueue Poller.start [Msgctl.success 10, Msgctl.failed 22]).msgQueueNum = 0 ∧
    (msgQueue Poller.start [Msgctl.success 10, Msgctl.failed 22]).adds = [10, -10] ∧
    (msgQueue Poller.start [Msgctl.success 10, Msgctl.failed 22]).logged = [22] := by
  decide

/-! ## Payloads that do not parse, and topics that are not registered -/

/-- C5: for every topic present in `instrumentMap` and every payload that does
not parse as a value of the kind of the topic's instrument (`ParseInt` for the
two integer kinds, `ParseFloat` for the two float kinds), `processSys` returns
a non-nil error and leaves the whole state, the record of the calls of `Add`
included, exactly as it was. -/
theorem parse_failure_atomic (ParseFloat : String → Float × Option NumError)
    (s : State) (topic payload : String) (i : Instrument)
    (hi : s.instrumentMap topic = some i)
    (hint : i.kind = .Int64UpDownCounter ∨ i.kind = .Int64Counter →
      (ParseInt payload).2 ≠ none)
    (hfloat : i.kind = .Float64UpDownCounter ∨ i.kind = .Float64Counter →
      (ParseFloat payload).2 ≠ none) :
    (processSys ParseFloat s topic payload).2 ≠ none ∧
    (processSys ParseFloat s topic payload).1 = s := by
  cases hk : i.kind with
  | Int64UpDownCounter =>
    obtain ⟨err, herr⟩ := Option.ne_none_iff_exists'.mp (hint (Or.inl hk))
    rw [step_int_error ParseFloat s topic payload i _ err hi (typeSwitch_int i (Or.inl hk))
      (Prod.ext rfl herr)]
    exact ⟨by simp, rfl⟩
  | Int64Counter =>
    obtain ⟨err, herr⟩ := Option.ne_none_iff_exists'.mp (hint (Or.inr hk))
    rw [step_int_error ParseFloat s topic payload i _ err hi (typeSwitch_int i (Or.inr hk))
      (Prod.ext rfl herr)]
    exact ⟨by simp, rfl⟩
  | Float64UpDownCounter =>
    obtain ⟨err, herr⟩ := Option.ne_none_iff_exists'.mp (hfloat (Or.inl hk))
    rw [step_float_error ParseFloat s topic payload i _ err hi (typeSwitch_float i (Or.inl hk))
      (Prod.ext rfl herr)]
    exact ⟨by simp, rfl⟩
  | Float64Counter =>
    obtain ⟨err, herr⟩ := Option.ne_none_iff_exists'.mp (hfloat (Or.inr hk))
    rw [step_float_error ParseFloat s topic payload i _ err hi (typeSwitch_float i (Or.inr hk))
      (Prod.ext rfl herr)]
    exact ⟨by simp, rfl⟩

/-- The examples of C5: "abc" and "3.5" are syntax errors of `ParseInt`,
"9223372036854775808" and "-9223372036854775809" are range errors, and "abc"
on "clients/connected", after "5", yields an error and changes nothing. -/
theorem parse_failure_atomic_witness :
    (ParseInt "abc").2 = some .ErrSyntax ∧
    (ParseInt "3.5").2 = some .ErrSyntax ∧
    (ParseInt "9223372036854775808").2 = some .ErrRange ∧
    (ParseInt "-9223372036854775809").2 = some .ErrRange ∧
    (processSys rejectFloat (deliver rejectFloat initState "clients/connected" ["5"])
        "clients/connected" "abc").2 ≠ none ∧
    (processSys rejectFloat (deliver rejectFloat initState "clients/connected" ["5"])
        "clients/connected" "abc").1
      = deliver rejectFloat initState "clients/connected" ["5"] :=
  ⟨by decide, by decide, by decide, by decide,
   parse_failure_atomic rejectFloat (deliver rejectFloat initState "clients/connected" ["5"])
     "clients/connected" "abc" ⟨.Int64UpDownCounter, "mqtt/clients/connected", 0, true⟩
     (by decide) (fun _ => by decide) (fun h => absurd h (by decide))⟩

theorem HasPrefix_append (p t : String) : HasPrefix (p ++ t) p = true := by
  simp [HasPrefix, String.data_append]

theorem TrimPrefix_append (p t : String) : TrimPrefix (p ++ t) p = t := by
  simp [TrimPrefix, HasPrefix_append, String.data_append]

/-- C6: for every topic suffix that is not a key of `instrumentMap` and every
payload, `processSys` returns `nil` and leaves the whole state, the record of
the calls of `Add` included, as it was; and `handleSys`, given the suffix
behind `SysBase`, leaves the state as it was and logs nothing. -/
theorem unknown_topic_ignored (ParseFloat : String → Float × Option NumError)
    (s : State) (topic payload : String) (h : s.instrumentMap topic = none) :
    processSys ParseFloat s topic payload = (s, none) ∧
    (handleSys ParseFloat s (SysBase ++ topic) payload).1 = s ∧
    (handleSys ParseFloat s (SysBase ++ topic) payload).2.isNone = true := by
  have hp := step_unknown ParseFloat s topic payload h
  refine ⟨hp, ?_, ?_⟩ <;>
    simp [handleSys, HasPrefix_append, TrimPrefix_append, hp]

/-- The example of C6: "foo/bar" is no key of the registry left by
`initInstruments`, and a message on it, parsable or not, changes nothing. -/
theorem unknown_topic_ignored_witness :
    initState.instrumentMap "foo/bar" = none ∧
    processSys rejectFloat initState "foo/bar" "42" = (initState, none) ∧
    processSys rejectFloat initState "foo/bar" "abc" = (initState, none) :=
  ⟨by decide,
   (unknown_topic_ignored rejectFloat initState "foo/bar" "42" (by decide)).1,
   (unknown_topic_ignored rejectFloat initState "foo/bar" "abc" (by decide)).1⟩

/-! ## Single steps on integer topics -/

/-- C7: for every registered integer topic, bidirectional or monotonic, with no
entry in `currentInts`, and every payload that parses to `v`, `processSys`
calls `Add` once, on the topic's handle, with `v`, records
`currentInts[topic] = v`, changes nothing else (the registry and the meter
are as before), and returns `nil`. -/
theorem first_observation_absolute (ParseFloat : String → Float × Option NumError)
    (s : State) (topic payload : String) (i : Instrument) (v : Int)
    (hi : s.instrumentMap topic = some i)
    (hk : i.kind = .Int64UpDownCounter ∨ i.kind = .Int64Counter)
    (hc : s.currentInts topic = none) (hp : ParseInt payload = (v, none)) :
    processSys ParseFloat s topic payload
      = ({ s with currentInts := setKey s.currentInts topic v,
                  adds := s.adds ++ [⟨i, .int v⟩] }, none) ∧
    (processSys ParseFloat s topic payload).1.instrumentMap = s.instrumentMap ∧
    (processSys ParseFloat s topic payload).1.adds = s.adds ++ [⟨i, .int v⟩] ∧
    (processSys ParseFloat s topic payload).1.currentInts topic = some v := by
  rw [step_int_first ParseFloat s topic payload i v hi (typeSwitch_int i hk) hc hp]
  exact ⟨rfl, rfl, rfl, setKey_same _ _ _⟩

/-- The examples of C7: a first "5" on the bidirectional "clients/connected"
and a first "10" on the monotonic "clients/maximum". -/
theorem first_observation_absolute_witness :
    (processSys rejectFloat initState "clients/connected" "5").1.adds
      = initState.adds ++ [⟨⟨.Int64UpDownCounter, "mqtt/clients/connected", 0, true⟩, .int 5⟩] ∧
    (processSys rejectFloat initState "clients/connected" "5").1.currentInts
      "clients/connected" = some 5 ∧
    (processSys rejectFloat initState "clients/maximum" "10").1.adds
      = initState.adds ++ [⟨⟨.Int64Counter, "mqtt/clients/maximum", 3, true⟩, .int 10⟩] ∧
    (processSys rejectFloat initState "clients/maximum" "10").1.currentInts
      "clients/maximum" = some 10 :=
  ⟨(first_observation_absolute rejectFloat initState "clients/connected" "5"
      ⟨.Int64UpDownCounter, "mqtt/clients/connected", 0, true⟩ 5 (by decide) (Or.inl rfl)
      (by decide) (by decide)).2.2.1,
   (first_observation_absolute rejectFloat initState "clients/connected" "5"
      ⟨.Int64UpDownCounter, "mqtt/clients/connected", 0, true⟩ 5 (by decide) (Or.inl rfl)
      (by decide) (by decide)).2.2.2,
   (first_observation_absolute rejectFloat initState "clients/maximum" "10"
      ⟨.Int64Counter, "mqtt/clients/maximum", 3, true⟩ 10 (by decide) (Or.inr rfl)
      (by decide) (by decide)).2.2.1,
   (first_observation_absolute rejectFloat initState "clients/maximum" "10"
      ⟨.Int64Counter, "mqtt/clients/maximum", 3, true⟩ 10 (by decide) (Or.inr rfl)
      (by decide) (by decide)).2.2.2⟩

/-- C8, as stated, fails: on the bidirectional topic "clients/connected" with
recorded last value `c = -2^63`, the payload "9223372036854775807" parses to
`v = 2^63 - 1`, and the value passed to `Add` is `-1`, which is not `v - c`. -/
theorem bidirectional_exact_counterexample :
    (deliver rejectFloat initState "clients/connected"
        ["-9223372036854775808"]).currentInts "clients/connected"
      = some (-9223372036854775808) ∧
    ParseInt "9223372036854775807" = (9223372036854775807, none) ∧
    intAddsOn ⟨.Int64UpDownCounter, "mqtt/clients/connected", 0, true⟩
        (processSys rejectFloat
          (deliver rejectFloat initState "clients/connected" ["-9223372036854775808"])
          "clients/connected" "9223372036854775807").1.adds
      = [-9223372036854775808, -1] ∧
    (-1 : Int) ≠ 9223372036854775807 - (-9223372036854775808) := by
  decide

/-- C8, amended: on a bidirectional integer topic with handle `i` and recorded
last value `c`, for every payload that parses to `v` (above, at or below `c`),
`processSys` calls `Add` once, on `i`, with `v - c` reduced modulo `2^64` into
the `int64` range, which is `v - c` itself exactly when `-2^63 <= v - c < 2^63`;
it records `currentInts[topic] = v`, leaves the registry and the meter as they
were (no handle is ever replaced), and returns `nil`. -/
theorem bidirectional_step (ParseFloat : String → Float × Option NumError)
    (s : State) (topic payload : String) (i : Instrument) (c v : Int)
    (hi : s.instrumentMap topic = some i) (hk : i.kind = .Int64UpDownCounter)
    (hc : s.currentInts topic = some c) (hp : ParseInt payload = (v, none)) :
    processSys ParseFloat s topic payload
      = ({ s with adds := s.adds ++ [⟨i, .int (wrapInt64 (v - c))⟩],
                  currentInts := setKey s.currentInts topic v }, none) ∧
    (processSys ParseFloat s topic payload).1.instrumentMap = s.instrumentMap ∧
    (processSys ParseFloat s topic payload).1.meter = s.meter ∧
    (processSys ParseFloat s topic payload).1.currentInts topic = some v ∧
    (wrapInt64 (v - c) = v - c ↔ InInt64 (v - c)) := by
  rw [step_updown ParseFloat s topic payload i c v hi (typeSwitch_updown i hk) hc hp]
  exact ⟨rfl, rfl, rfl, setKey_same _ _ _, wrapInt64_eq_self_iff _⟩

/-- The example of C8: after "5","8","8" on "clients/connected" the payload "3"
passes `3 - 8 = -5` to the same handle and records `3`. -/
theorem bidirectional_step_witness :
    (processSys rejectFloat (deliver rejectFloat initState "clients/connected" ["5", "8", "8"])
        "clients/connected" "3").1.adds
      = (deliver rejectFloat initState "clients/connected" ["5", "8", "8"]).adds
          ++ [⟨⟨.Int64UpDownCounter, "mqtt/clients/connected", 0, true⟩, .int (-5)⟩] ∧
    (processSys rejectFloat (deliver rejectFloat initState "clients/connected" ["5", "8", "8"])
        "clients/connected" "3").1.currentInts "clients/connected" = some 3 := by
  have h := bidirectional_step rejectFloat
    (deliver rejectFloat initState "clients/connected" ["5", "8", "8"])
    "clients/connected" "3" ⟨.Int64UpDownCounter, "mqtt/clients/connected", 0, true⟩ 8 3
    (by decide) rfl (by decide) (by decide)
  refine ⟨?_, h.2.2.2.1⟩
  rw [h.1]
  rfl

/-! ## The struct translator -/

theorem tdiv_billion (x : Int) :
    Int.tdiv x 1000000000
      = if 0 ≤ x then x / 1000000000 else -((-x) / 1000000000) := by
  split
  · exact Int.tdiv_eq_ediv (by omega) (by omega)
  · have h1 : Int.tdiv (-x) 1000000000 = (-x) / 1000000000 :=
      Int.tdiv_eq_ediv (by omega) (by omega)
    have h2 := Int.neg_tdiv (-x) 1000000000
    rw [neg_neg] at h2
    rw [h2, h1]

/-- The nanosecond field of `time.Unix(0, x)` is the non-negative remainder of
`x` modulo `10^9`, and its second field is the floor of `x / 10^9`. -/
theorem Unix_zero_eq {x : Int} (hx : InInt64 x) :
    Unix 0 x = ⟨x / 1000000000, x % 1000000000⟩ := by
  unfold InInt64 at hx
  unfold Unix
  rw [tdiv_billion]
  simp only [wrapInt64]
  split_ifs <;> simp only [Time.mk.injEq] <;> constructor <;> omega

theorem uint64OfInt_nsec (sec n : Int) (h0 : 0 ≤ n) (h1 : n < 2 ^ 64) :
    uint64OfInt (Time.Nanosecond ⟨sec, n⟩) = n.toNat := by
  unfold Time.Nanosecond uint64OfInt
  simp only
  rw [Int.emod_eq_of_lt h0 h1]

theorem roundTrip_time (t : Nat) :
    uint64OfInt (Unix 0 (int64OfUint64 t)).Nanosecond
      = (int64OfUint64 t % 1000000000).toNat := by
  have h := Unix_zero_eq (wrapInt64_inInt64 (t : Int))
  unfold int64OfUint64
  rw [h]
  exact uint64OfInt_nsec _ _ (by omega) (by omega)

theorem roundTrip_time_ne_iff (t : Nat) :
    uint64OfInt (Unix 0 (int64OfUint64 t)).Nanosecond ≠ t ↔ 1000000000 ≤ t := by
  rw [roundTrip_time]
  by_cases h : 1000000000 ≤ t
  · have hlt : (int64OfUint64 t % 1000000000).toNat < 1000000000 := by
      generalize int64OfUint64 t = x
      omega
    constructor
    · intro _; exact h
    · intro _; omega
  · have hx : int64OfUint64 t = (t : Int) := by
      apply wrapInt64_eq_self
      unfold InInt64
      constructor <;> omega
    rw [hx]
    constructor
    · intro hne
      exact absurd (by omega) hne
    · intro hge
      exact absurd hge h

/-- C9: for every raw record `m`, decoding it with `msqidds.convertBuffer` and
encoding the result again with `MsqidDS.convertBuffer`, whatever the two
destinations held before, gives a raw record whose `msgPerm` (the whole
permission block), `msgCbytes`, `msgQnum`, `msgQbytes`, `msglSpid` and
`msglRpid` are those of `m`. -/
theorem roundTrip_other_fields (m : msqidds) (r : MsqidDS) (r' : msqidds) :
    ((m.convertBuffer r).convertBuffer r').msgPerm = m.msgPerm ∧
    ((m.convertBuffer r).convertBuffer r').msgCbytes = m.msgCbytes ∧
    ((m.convertBuffer r).convertBuffer r').msgQnum = m.msgQnum ∧
    ((m.convertBuffer r).convertBuffer r').msgQbytes = m.msgQbytes ∧
    ((m.convertBuffer r).convertBuffer r').msglSpid = m.msglSpid ∧
    ((m.convertBuffer r).convertBuffer r').msglRpid = m.msglRpid := by
  unfold MsqidDS.convertBuffer msqidds.convertBuffer
  simp only [and_self]

/-- C10, as stated, fails: the raw record whose three timestamps are `5`, `0`
and `999999999` is reproduced by decoding and encoding again, timestamps
included. -/
theorem roundTrip_timestamps_counterexample :
    (roundTrip { msqidds.zero with msgStime := 5, msgRtime := 0, msgCtime := 999999999 }).msgStime
      = 5 ∧
    (roundTrip { msqidds.zero with msgStime := 5, msgRtime := 0, msgCtime := 999999999 }).msgRtime
      = 0 ∧
    (roundTrip { msqidds.zero with msgStime := 5, msgRtime := 0, msgCtime := 999999999 }).msgCtime
      = 999999999 ∧
    roundTrip { msqidds.zero with msgStime := 5, msgRtime := 0, msgCtime := 999999999 }
      = { msqidds.zero with msgStime := 5, msgRtime := 0, msgCtime := 999999999 } := by
  refine ⟨by decide, by decide, by decide, ?_⟩
  unfold roundTrip MsqidDS.convertBuffer msqidds.convertBuffer msqidds.zero
  simp only [msqidds.mk.injEq, true_and, and_true]
  decide

/-- C10, amended: for every raw record `m`, decoding it and encoding the result
again gives a `msgStime` different from that of `m` exactly when the original
is at least `10^9`, and likewise for `msgRtime` and `msgCtime`; a raw
timestamp below `10^9` is reproduced. -/
theorem roundTrip_timestamps (m : msqidds) (r : MsqidDS) (r' : msqidds) :
    (((m.convertBuffer r).convertBuffer r').msgStime ≠ m.msgStime ↔ 1000000000 ≤ m.msgStime) ∧
    (((m.convertBuffer r).convertBuffer r').msgRtime ≠ m.msgRtime ↔ 1000000000 ≤ m.msgRtime) ∧
    (((m.convertBuffer r).convertBuffer r').msgCtime ≠ m.msgCtime ↔ 1000000000 ≤ m.msgCtime) := by
  unfold MsqidDS.convertBuffer msqidds.convertBuffer
  simp only
  exact ⟨roundTrip_time_ne_iff m.msgStime, roundTrip_time_ne_iff m.msgRtime,
    roundTrip_time_ne_iff m.msgCtime⟩

/-! ## The timestamp codec -/

/-- C11: `msqidds.convertBuffer` decodes each raw timestamp `t` as
`time.Unix(0, int64(t))`, the instant `int64(t)` nanoseconds after the Unix
epoch (seconds and nanoseconds with `sec * 10^9 + nsec = int64(t)` and
`0 <= nsec < 10^9`); `MsqidDS.convertBuffer` encodes a structured timestamp
as its `Nanosecond()` alone; hence decoding and encoding again turns `t` into
`int64(t) mod 10^9`, a value in `[0, 10^9)`, which is `t` exactly when
`t < 10^9`.  Stated for `msgStime`, `msgRtime` and `msgCtime`. -/
theorem timestamp_codec (m : msqidds) (r M : MsqidDS) (r' : msqidds) :
    ((m.convertBuffer r).MsgStime = Unix 0 (int64OfUint64 m.msgStime) ∧
     (m.convertBuffer r).MsgRtime = Unix 0 (int64OfUint64 m.msgRtime) ∧
     (m.convertBuffer r).MsgCtime = Unix 0 (int64OfUint64 m.msgCtime)) ∧
    (∀ t : Nat,
      (Unix 0 (int64OfUint64 t)).sec * 1000000000 + (Unix 0 (int64OfUint64 t)).nsec
        = int64OfUint64 t ∧
      0 ≤ (Unix 0 (int64OfUint64 t)).nsec ∧ (Unix 0 (int64OfUint64 t)).nsec < 1000000000) ∧
    ((M.convertBuffer r').msgStime = uint64OfInt M.MsgStime.Nanosecond ∧
     (M.convertBuffer r').msgRtime = uint64OfInt M.MsgRtime.Nanosecond ∧
     (M.convertBuffer r').msgCtime = uint64OfInt M.MsgCtime.Nanosecond) ∧
    ((((m.convertBuffer r).convertBuffer r').msgStime : Int)
        = int64OfUint64 m.msgStime % 1000000000 ∧
     (((m.convertBuffer r).convertBuffer r').msgRtime : Int)
        = int64OfUint64 m.msgRtime % 1000000000 ∧
     (((m.convertBuffer r).convertBuffer r').msgCtime : Int)
        = int64OfUint64 m.msgCtime % 1000000000) ∧
    (((m.convertBuffer r).convertBuffer r').msgStime < 1000000000 ∧
     ((m.convertBuffer r).convertBuffer r').msgRtime < 1000000000 ∧
     ((m.convertBuffer r).convertBuffer r').msgCtime < 1000000000) ∧
    ((((m.convertBuffer r).convertBuffer r').msgStime = m.msgStime ↔ m.msgStime < 1000000000) ∧
     (((m.convertBuffer r).convertBuffer r').msgRtime = m.msgRtime ↔ m.msgRtime < 1000000000) ∧
     (((m.convertBuffer r).convertBuffer r').msgCtime = m.msgCtime ↔ m.msgCtime < 1000000000)) := by
  have hcast : ∀ t : Nat, ((uint64OfInt (Unix 0 (int64OfUint64 t)).Nanosecond : Nat) : Int)
      = int64OfUint64 t % 1000000000 := by
    intro t
    rw [roundTrip_time]
    exact Int.toNat_of_nonneg (Int.emod_nonneg _ (by norm_num))
  have hlt : ∀ t : Nat, uint64OfInt (Unix 0 (int64OfUint64 t)).Nanosecond < 1000000000 := by
    intro t
    have := hcast t
    omega
  have hiff : ∀ t : Nat,
      uint64OfInt (Unix 0 (int64OfUint64 t)).Nanosecond = t ↔ t < 1000000000 := by
    intro t
    have := roundTrip_time_ne_iff t
    constructor
    · intro h
      by_contra hge
      exact (this.mpr (by omega)) h
    · intro h
      by_contra hne
      have := this.mp hne
      omega
  have hunix : ∀ t : Nat,
      (Unix 0 (int64OfUint64 t)).sec * 1000000000 + (Unix 0 (int64OfUint64 t)).nsec
        = int64OfUint64 t ∧
      0 ≤ (Unix 0 (int64OfUint64 t)).nsec ∧ (Unix 0 (int64OfUint64 t)).nsec < 1000000000 := by
    intro t
    have h := Unix_zero_eq (wrapInt64_inInt64 (t : Int))
    unfold int64OfUint64
    rw [h]
    simp only
    refine ⟨?_, ?_, ?_⟩ <;> omega
  unfold MsqidDS.convertBuffer msqidds.convertBuffer
  simp only [true_and, and_self]
  exact ⟨hunix, ⟨hcast _, hcast _, hcast _⟩, ⟨hlt _, hlt _, hlt _⟩, hiff _, hiff _, hiff _⟩

/-! ## The bootstrap -/

/-- The error returned by `initInstruments` is the outcome of its last
creation call, the 19th, and of no other. -/
theorem initInstruments_error (m : Meter) :
    (initInstruments m).2 = m.failure (m.created + 18) := rfl

/-- C12 fails on the code: on a meter whose first 18 creation calls fail and
whose 19th succeeds, `initInstruments` returns `nil`. -/
theorem initInstruments_masks_failures :
    (∀ n, n < 18 → lastSucceedsMeter.failure (lastSucceedsMeter.created + n) ≠ none) ∧
    (initInstruments lastSucceedsMeter).2 = none := by
  refine ⟨?_, by decide⟩
  intro n hn
  have : n ≠ 18 := by omega
  simp [lastSucceedsMeter, this]

/-- The registry left by `initInstruments`, key by key: the last assignment to
a key wins, and the handle stored is the one of the creation call with that
ordinal. -/
theorem initInstruments_map (m : Meter) (t : String) :
    (initInstruments m).1.instrumentMap t =
      if t = "subscriptions/count" then
        some ⟨.Int64UpDownCounter, "mqtt/subscriptions/count", m.created + 18, m.sharedType⟩
      else
      if t = "store/messages/bytes" then
        some ⟨.Int64UpDownCounter, "mqtt/store/messages/bytes", m.created + 17, m.sharedType⟩
      else
      if t = "store/messages/count" then
        some ⟨.Int64UpDownCounter, "mqtt/store/messages/count", m.created + 16, m.sharedType⟩
      else
      if t = "heap/maximum" then
        some ⟨.Int64UpDownCounter, "mqtt/heap/maximum", m.created + 15, m.sharedType⟩
      else
      if t = "heap/current" then
        some ⟨.Int64UpDownCounter, "mqtt/heap/current", m.created + 14, m.sharedType⟩
      else
      if t = "load/connections/1min" then
        some ⟨.Float64UpDownCounter, "mqtt/load/connections/1min", m.created + 13, m.sharedType⟩
      else
      if t = "load/sockets/1min" then
        some ⟨.Float64UpDownCounter, "mqtt/load/sockets/1min", m.created + 12, m.sharedType⟩
      else
      if t = "load/publish/sent/1min" then
        some ⟨.Float64UpDownCounter, "mqtt/load/publish/sent/1min", m.created + 11, m.sharedType⟩
      else
      if t = "load/publish/received/1min" then
        some ⟨.Float64UpDownCounter, "mqtt/load/publish/received/1min", m.created + 10, m.sharedType⟩
      else
      if t = "load/publish/dropped/1min" then
        some ⟨.Float64UpDownCounter, "mqtt/load/publish/dropped/1min", m.created + 9, m.sharedType⟩
      else
      if t = "load/messages/sent/1min" then
        some ⟨.Float64UpDownCounter, "mqtt/load/messages/sent/1min", m.created + 8, m.sharedType⟩
      else
      if t = "load/messages/received/1min" then
        some ⟨.Float64UpDownCounter, "mqtt/load/messages/received/1min", m.created + 7, m.sharedType⟩
      else
      if t = "load/bytes/sent/1min" then
        some ⟨.Float64UpDownCounter, "mqtt/load/bytes/sent/1min", m.created + 6, m.sharedType⟩
      else
      if t = "load/bytes/received/1min" then
        some ⟨.Float64UpDownCounter, "mqtt/load/bytes/received/1min", m.created + 5, m.sharedType⟩
      else
      if t = "clients/total" then
        some ⟨.Int64UpDownCounter, "mqtt/clients/total", m.created + 4, m.sharedType⟩
      else
      if t = "clients/maximum" then
        some ⟨.Int64Counter, "mqtt/clients/maximum", m.created + 3, m.sharedType⟩
      else
      if t = "clients/expired" then
        some ⟨.Int64UpDownCounter, "mqtt/clients/expired", m.created + 2, m.sharedType⟩
      else
      if t = "clients/disconnected" then
        some ⟨.Int64UpDownCounter, "mqtt/clients/disconnected", m.created + 1, m.sharedType⟩
      else
      if t = "clients/connected" then
        some ⟨.Int64UpDownCounter, "mqtt/clients/connected", m.created + 0, m.sharedType⟩
      else none := rfl

/-- C17, as stated, fails: "heap/maximum", a lifetime maximum, is registered by
`initInstruments` as an `Int64UpDownCounter`, a bidirectional instrument. -/
theorem heap_maximum_counterexample :
    "heap/maximum" ∈ registeredTopics ∧
    (initState.instrumentMap "heap/maximum").map (fun i => i.kind)
      = some .Int64UpDownCounter ∧
    (initState.instrumentMap "heap/maximum").map (fun i => i.kind.isMonotonic)
      = some false := by
  decide

theorem initInstruments_unregistered (m : Meter) (t : String) (h : t ∉ registeredTopics) :
    (initInstruments m).1.instrumentMap t = none := by
  rw [initInstruments_map]
  simp only [registeredTopics, List.mem_cons, List.mem_singleton, List.not_mem_nil, or_false,
    not_or] at h
  obtain ⟨h0, h1, h2, h3, h4, h5, h6, h7, h8, h9, h10, h11, h12, h13, h14, h15, h16, h17,
    h18⟩ := h
  simp only [h0, h1, h2, h3, h4, h5, h6, h7, h8, h9, h10, h11, h12, h13, h14, h15, h16, h17,
    h18, if_false]

theorem initInstruments_registered (m : Meter) (t : String) (h : t ∈ registeredTopics) :
    ((initInstruments m).1.instrumentMap t).map (fun i => i.kind.isMonotonic)
      = some (decide (t = "clients/maximum")) := by
  simp only [registeredTopics, List.mem_cons, List.mem_singleton, List.not_mem_nil,
    or_false] at h
  rcases h with h | h | h | h | h | h | h | h | h | h | h | h | h | h | h | h | h | h | h <;>
    subst h <;> rfl

/-- C17, amended: after `initInstruments` the registered suffixes are the 19 of
`registeredTopics`; "clients/maximum" is the only one registered as a
monotonic counter, and each of the other 18, "heap/maximum" included, is
registered as a bidirectional (up-down) counter. -/
theorem registry_counter_semantics (m : Meter) (t : String) :
    (((initInstruments m).1.instrumentMap t).isSome = true ↔ t ∈ registeredTopics) ∧
    (((initInstruments m).1.instrumentMap t).map (fun i => i.kind.isMonotonic) = some true
      ↔ t = "clients/maximum") ∧
    ((t ∈ registeredTopics ∧ t ≠ "clients/maximum") ↔
      ((initInstruments m).1.instrumentMap t).map (fun i => i.kind.isMonotonic)
        = some false) := by
  by_cases ht : t ∈ registeredTopics
  · have hreg := initInstruments_registered m t ht
    refine ⟨⟨fun _ => ht, fun _ => ?_⟩, ?_, ?_⟩
    · cases hmap : (initInstruments m).1.instrumentMap t with
      | none => rw [hmap] at hreg; exact absurd hreg (by simp)
      | some i => rfl
    · rw [hreg]; simp
    · rw [hreg]; simp [ht]
  · have hnone := initInstruments_unregistered m t ht
    have hne : t ≠ "clients/maximum" := by
      intro h
      exact ht (by rw [h]; decide)
    rw [hnone]
    simp [ht, hne]

/-! ## The poller on successful queries -/

section Shape

variable (ParseFloat : String → Float × Option NumError)

theorem step_float_first (s : State) (topic payload : String) (i : Instrument) (v : Float)
    (hi : s.instrumentMap topic = some i)
    (hts : typeSwitch i = some .Float64UpDownCounter ∨ typeSwitch i = some .Float64Counter)
    (hc : s.currentFloats topic = none) (hp : ParseFloat payload = (v, none)) :
    processSys ParseFloat s topic payload =
      ({ s with currentFloats := setKey s.currentFloats topic v,
                adds := s.adds ++ [⟨i, .float v⟩] }, none) := by
  rcases hts with hts | hts <;> simp [processSys, hi, hts, hp, hc]

theorem step_float_updown (s : State) (topic payload : String) (i : Instrument) (c v : Float)
    (hi : s.instrumentMap topic = some i) (hts : typeSwitch i = some .Float64UpDownCounter)
    (hc : s.currentFloats topic = some c) (hp : ParseFloat payload = (v, none)) :
    processSys ParseFloat s topic payload =
      ({ s with adds := s.adds ++ [⟨i, .float (v - c)⟩],
                currentFloats := setKey s.currentFloats topic v }, none) := by
  simp [processSys, hi, hts, hp, hc]

theorem step_float_reset (s : State) (topic payload : String) (i : Instrument) (c v : Float)
    (hi : s.instrumentMap topic = some i) (hts : typeSwitch i = some .Float64Counter)
    (hc : s.currentFloats topic = some c) (hp : ParseFloat payload = (v, none))
    (hlt : v < c) :
    processSys ParseFloat s topic payload =
      ({ s with currentFloats := setKey s.currentFloats topic v,
                instrumentMap :=
                  setKey s.instrumentMap topic ⟨.Float64Counter, topic, s.meter.created, s.meter.sharedType⟩,
                meter := { s.meter with created := s.meter.created + 1 },
                adds := s.adds ++ [⟨⟨.Float64Counter, topic, s.meter.created, s.meter.sharedType⟩, .float v⟩] },
       none) := by
  simp [processSys, hi, hts, hp, hc, hlt, Meter.create]

theorem step_float_forward (s : State) (topic payload : String) (i : Instrument) (c v : Float)
    (hi : s.instrumentMap topic = some i) (hts : typeSwitch i = some .Float64Counter)
    (hc : s.currentFloats topic = some c) (hp : ParseFloat payload = (v, none))
    (hge : ¬ v < c) :
    processSys ParseFloat s topic payload =
      ({ s with adds := s.adds ++ [⟨i, .float (v - c)⟩],
                currentFloats := setKey s.currentFloats topic v }, none) := by
  simp [processSys, hi, hts, hp, hc, hge]

/-- What one call of `processSys` can do to the state.  The registry and the
meter stay as they are, or the topic holds a handle that was created as a
`Counter` and whose type implements no other interface, and it gets a new
handle of the same interface, created under the bare topic, with the meter's
next ordinal.  Each table of last values stays as it is or gets an entry for
the topic, which then holds a handle of the table's numeric kind.  The record
of `Add` stays as it is or grows by one call, on the handle the topic holds
afterwards. -/
theorem processSys_shape (s : State) (topic payload : String) :
    ((processSys ParseFloat s topic payload).1.instrumentMap = s.instrumentMap ∧
        (processSys ParseFloat s topic payload).1.meter = s.meter ∨
      ∃ i, s.instrumentMap topic = some i ∧ i.kind.isMonotonic = true ∧
        i.sharedType = false ∧
        (processSys ParseFloat s topic payload).1.instrumentMap
          = setKey s.instrumentMap topic ⟨i.kind, topic, s.meter.created, s.meter.sharedType⟩ ∧
        (processSys ParseFloat s topic payload).1.meter.created = s.meter.created + 1 ∧
        (processSys ParseFloat s topic payload).1.meter.sharedType = s.meter.sharedType) ∧
    ((processSys ParseFloat s topic payload).1.currentInts = s.currentInts ∨
      ∃ i v, s.instrumentMap topic = some i ∧ i.kind.isInteger = true ∧
        (processSys ParseFloat s topic payload).1.currentInts = setKey s.currentInts topic v) ∧
    ((processSys ParseFloat s topic payload).1.currentFloats = s.currentFloats ∨
      ∃ i v, s.instrumentMap topic = some i ∧ i.kind.isInteger = false ∧
        (processSys ParseFloat s topic payload).1.currentFloats
          = setKey s.currentFloats topic v) ∧
    ((processSys ParseFloat s topic payload).1.adds = s.adds ∨
      ∃ h x, (processSys ParseFloat s topic payload).1.instrumentMap topic = some h ∧
        (processSys ParseFloat s topic payload).1.adds = s.adds ++ [⟨h, x⟩]) := by
  cases hi : s.instrumentMap topic with
  | none =>
    rw [step_unknown ParseFloat s topic payload hi]
    exact ⟨Or.inl ⟨rfl, rfl⟩, Or.inl rfl, Or.inl rfl, Or.inl rfl⟩
  | some i =>
    cases hts : typeSwitch i with
    | none => exact absurd hts (typeSwitch_ne_none i)
    | some k =>
      obtain ⟨hnum, hmono⟩ := typeSwitch_spec i k hts
      cases k with
      | Int64UpDownCounter =>
        have hint : i.kind.isInteger = true := hnum.symm
        cases herr : (ParseInt payload).2 with
        | some err =>
          rw [step_int_error ParseFloat s topic payload i _ err hi (Or.inl hts)
            (Prod.ext rfl herr)]
          exact ⟨Or.inl ⟨rfl, rfl⟩, Or.inl rfl, Or.inl rfl, Or.inl rfl⟩
        | none =>
          have hp := ParseInt_eta herr
          cases hc : s.currentInts topic with
          | none =>
            rw [step_int_first ParseFloat s topic payload i _ hi (Or.inl hts) hc hp]
            exact ⟨Or.inl ⟨rfl, rfl⟩, Or.inr ⟨i, _, rfl, hint, rfl⟩, Or.inl rfl,
              Or.inr ⟨i, _, hi, rfl⟩⟩
          | some c =>
            rw [step_updown ParseFloat s topic payload i c _ hi hts hc hp]
            exact ⟨Or.inl ⟨rfl, rfl⟩, Or.inr ⟨i, _, rfl, hint, rfl⟩, Or.inl rfl,
              Or.inr ⟨i, _, hi, rfl⟩⟩
      | Int64Counter =>
        have hint : i.kind.isInteger = true := hnum.symm
        obtain ⟨hk, hsep⟩ := hmono rfl
        cases herr : (ParseInt payload).2 with
        | some err =>
          rw [step_int_error ParseFloat s topic payload i _ err hi (Or.inr hts)
            (Prod.ext rfl herr)]
          exact ⟨Or.inl ⟨rfl, rfl⟩, Or.inl rfl, Or.inl rfl, Or.inl rfl⟩
        | none =>
          have hp := ParseInt_eta herr
          cases hc : s.currentInts topic with
          | none =>
            rw [step_int_first ParseFloat s topic payload i _ hi (Or.inr hts) hc hp]
            exact ⟨Or.inl ⟨rfl, rfl⟩, Or.inr ⟨i, _, rfl, hint, rfl⟩, Or.inl rfl,
              Or.inr ⟨i, _, hi, rfl⟩⟩
          | some c =>
            by_cases hlt : (ParseInt payload).1 < c
            · rw [step_counter_reset ParseFloat s topic payload i c _ hi hts hc hp hlt]
              exact ⟨Or.inr ⟨i, rfl, by rw [hk]; rfl, hsep, by rw [hk], rfl, rfl⟩,
                Or.inr ⟨i, _, rfl, hint, rfl⟩, Or.inl rfl,
                Or.inr ⟨_, _, setKey_same _ _ _, rfl⟩⟩
            · rw [step_counter_forward ParseFloat s topic payload i c _ hi hts hc hp
                (not_lt.mp hlt)]
              exact ⟨Or.inl ⟨rfl, rfl⟩, Or.inr ⟨i, _, rfl, hint, rfl⟩, Or.inl rfl,
                Or.inr ⟨i, _, hi, rfl⟩⟩
      | Float64UpDownCounter =>
        have hflo : i.kind.isInteger = false := hnum.symm
        cases herr : (ParseFloat payload).2 with
        | some err =>
          rw [step_float_error ParseFloat s topic payload i _ err hi (Or.inl hts)
            (Prod.ext rfl herr)]
          exact ⟨Or.inl ⟨rfl, rfl⟩, Or.inl rfl, Or.inl rfl, Or.inl rfl⟩
        | none =>
          have hp : ParseFloat payload = ((ParseFloat payload).1, none) := Prod.ext rfl herr
          cases hc : s.currentFloats topic with
          | none =>
            rw [step_float_first ParseFloat s topic payload i _ hi (Or.inl hts) hc hp]
            exact ⟨Or.inl ⟨rfl, rfl⟩, Or.inl rfl, Or.inr ⟨i, _, rfl, hflo, rfl⟩,
              Or.inr ⟨i, _, hi, rfl⟩⟩
          | some c =>
            rw [step_float_updown ParseFloat s topic payload i c _ hi hts hc hp]
            exact ⟨Or.inl ⟨rfl, rfl⟩, Or.inl rfl, Or.inr ⟨i, _, rfl, hflo, rfl⟩,
              Or.inr ⟨i, _, hi, rfl⟩⟩
      | Float64Counter =>
        have hflo : i.kind.isInteger = false := hnum.symm
        obtain ⟨hk, hsep⟩ := hmono rfl
        cases herr : (ParseFloat payload).2 with
        | some err =>
          rw [step_float_error ParseFloat s topic payload i _ err hi (Or.inr hts)
            (Prod.ext rfl herr)]
          exact ⟨Or.inl ⟨rfl, rfl⟩, Or.inl rfl, Or.inl rfl, Or.inl rfl⟩
        | none =>
          have hp : ParseFloat payload = ((ParseFloat payload).1, none) := Prod.ext rfl herr
          cases hc : s.currentFloats topic with
          | none =>
            rw [step_float_first ParseFloat s topic payload i _ hi (Or.inr hts) hc hp]
            exact ⟨Or.inl ⟨rfl, rfl⟩, Or.inl rfl, Or.inr ⟨i, _, rfl, hflo, rfl⟩,
              Or.inr ⟨i, _, hi, rfl⟩⟩
          | some c =>
            by_cases hlt : (ParseFloat payload).1 < c
            · rw [step_float_reset ParseFloat s topic payload i c _ hi hts hc hp hlt]
              exact ⟨Or.inr ⟨i, rfl, by rw [hk]; rfl, hsep, by rw [hk], rfl, rfl⟩, Or.inl rfl,
                Or.inr ⟨i, _, rfl, hflo, rfl⟩,
                Or.inr ⟨_, _, setKey_same _ _ _, rfl⟩⟩
            · rw [step_float_forward ParseFloat s topic payload i c _ hi hts hc hp hlt]
              exact ⟨Or.inl ⟨rfl, rfl⟩, Or.inl rfl, Or.inr ⟨i, _, rfl, hflo, rfl⟩,
                Or.inr ⟨i, _, hi, rfl⟩⟩

end Shape

/-! ## Invariants of the registry and of the tables of last values -/

section Invariants

variable (ParseFloat : String → Float × Option NumError)

/-- One call of `processSys` keeps, under every key, the interface of the
handle stored there, and keeps the handle itself when it is not monotonic. -/
theorem processSys_kinds (s : State) (topic payload : String) (t : String) :
    ((processSys ParseFloat s topic payload).1.instrumentMap t).map (fun i => i.kind)
      = (s.instrumentMap t).map (fun i => i.kind) ∧
    (∀ i, s.instrumentMap t = some i → i.kind.isMonotonic = false →
      (processSys ParseFloat s topic payload).1.instrumentMap t = some i) := by
  rcases (processSys_shape ParseFloat s topic payload).1 with
    ⟨hmap, _⟩ | ⟨i, hi, hmono, _, hmap, _⟩
  · rw [hmap]
    exact ⟨rfl, fun i hi _ => hi⟩
  · rw [hmap]
    by_cases ht : t = topic
    · subst ht
      rw [setKey_same, hi]
      refine ⟨rfl, ?_⟩
      intro j hj hjm
      rw [Option.some.injEq] at hj
      rw [← hj, hmono] at hjm
      exact absurd hjm (by decide)
    · rw [setKey_other _ _ _ _ ht]
      exact ⟨rfl, fun i hi _ => hi⟩

theorem processAll_kinds (msgs : List (String × String)) (t : String) :
    ∀ s : State,
    ((processAll ParseFloat s msgs).instrumentMap t).map (fun i => i.kind)
      = (s.instrumentMap t).map (fun i => i.kind) ∧
    (∀ i, s.instrumentMap t = some i → i.kind.isMonotonic = false →
      (processAll ParseFloat s msgs).instrumentMap t = some i) := by
  induction msgs with
  | nil =>
    intro s
    exact ⟨rfl, fun i hi _ => hi⟩
  | cons m ms ih =>
    intro s
    obtain ⟨hk, hh⟩ := processSys_kinds ParseFloat s m.1 m.2 t
    obtain ⟨ik, ih'⟩ := ih (processSys ParseFloat s m.1 m.2).1
    refine ⟨?_, ?_⟩
    · simp only [processAll]
      rw [ik, hk]
    · intro i hi hm
      simp only [processAll]
      exact ih' i (hh i hi hm) hm

/-- One call of `processSys` keeps this invariant: every key of `currentInts`
holds an integer handle in the registry and every key of `currentFloats` a
float handle. -/
theorem processSys_tables (s : State) (topic payload : String)
    (hint : ∀ t c, s.currentInts t = some c →
      ∃ i, s.instrumentMap t = some i ∧ i.kind.isInteger = true)
    (hfloat : ∀ t c, s.currentFloats t = some c →
      ∃ i, s.instrumentMap t = some i ∧ i.kind.isInteger = false) :
    (∀ t c, (processSys ParseFloat s topic payload).1.currentInts t = some c →
      ∃ i, (processSys ParseFloat s topic payload).1.instrumentMap t = some i
        ∧ i.kind.isInteger = true) ∧
    (∀ t c, (processSys ParseFloat s topic payload).1.currentFloats t = some c →
      ∃ i, (processSys ParseFloat s topic payload).1.instrumentMap t = some i
        ∧ i.kind.isInteger = false) := by
  have hkeep : ∀ t i, s.instrumentMap t = some i →
      ∃ j, (processSys ParseFloat s topic payload).1.instrumentMap t = some j
        ∧ j.kind = i.kind := by
    intro t i hi
    have hk := (processSys_kinds ParseFloat s topic payload t).1
    rw [hi] at hk
    cases hj : (processSys ParseFloat s topic payload).1.instrumentMap t with
    | none => rw [hj] at hk; exact absurd hk (by simp)
    | some j =>
      rw [hj] at hk
      simp only [Option.map_some', Option.some.injEq] at hk
      exact ⟨j, rfl, hk⟩
  obtain ⟨_, hci, hcf, _⟩ := processSys_shape ParseFloat s topic payload
  constructor
  · intro t c hc
    rcases hci with hsame | ⟨i, v, hi, hkind, hset⟩
    · rw [hsame] at hc
      obtain ⟨i, hi, hkind⟩ := hint t c hc
      obtain ⟨j, hj, hjk⟩ := hkeep t i hi
      exact ⟨j, hj, by rw [hjk]; exact hkind⟩
    · rw [hset] at hc
      by_cases ht : t = topic
      · subst ht
        obtain ⟨j, hj, hjk⟩ := hkeep t i hi
        exact ⟨j, hj, by rw [hjk]; exact hkind⟩
      · rw [setKey_other _ _ _ _ ht] at hc
        obtain ⟨i, hi, hkind⟩ := hint t c hc
        obtain ⟨j, hj, hjk⟩ := hkeep t i hi
        exact ⟨j, hj, by rw [hjk]; exact hkind⟩
  · intro t c hc
    rcases hcf with hsame | ⟨i, v, hi, hkind, hset⟩
    · rw [hsame] at hc
      obtain ⟨i, hi, hkind⟩ := hfloat t c hc
      obtain ⟨j, hj, hjk⟩ := hkeep t i hi
      exact ⟨j, hj, by rw [hjk]; exact hkind⟩
    · rw [hset] at hc
      by_cases ht : t = topic
      · subst ht
        obtain ⟨j, hj, hjk⟩ := hkeep t i hi
        exact ⟨j, hj, by rw [hjk]; exact hkind⟩
      · rw [setKey_other _ _ _ _ ht] at hc
        obtain ⟨i, hi, hkind⟩ := hfloat t c hc
        obtain ⟨j, hj, hjk⟩ := hkeep t i hi
        exact ⟨j, hj, by rw [hjk]; exact hkind⟩

theorem processAll_tables (msgs : List (String × String)) :
    ∀ s : State,
    (∀ t c, s.currentInts t = some c →
      ∃ i, s.instrumentMap t = some i ∧ i.kind.isInteger = true) →
    (∀ t c, s.currentFloats t = some c →
      ∃ i, s.instrumentMap t = some i ∧ i.kind.isInteger = false) →
    (∀ t c, (processAll ParseFloat s msgs).currentInts t = some c →
      ∃ i, (processAll ParseFloat s msgs).instrumentMap t = some i
        ∧ i.kind.isInteger = true) ∧
    (∀ t c, (processAll ParseFloat s msgs).currentFloats t = some c →
      ∃ i, (processAll ParseFloat s msgs).instrumentMap t = some i
        ∧ i.kind.isInteger = false) := by
  induction msgs with
  | nil =>
    intro s hint hfloat
    exact ⟨hint, hfloat⟩
  | cons m ms ih =>
    intro s hint hfloat
    obtain ⟨h1, h2⟩ := processSys_tables ParseFloat s m.1 m.2 hint hfloat
    exact ih (processSys ParseFloat s m.1 m.2).1 h1 h2

end Invariants

/-- C13: in every state reached from the one left by `initInstruments` by any
sequence of `processSys` calls, each key holds a handle exactly when it did
after `initInstruments`, the handle has the interface (hence the numeric kind
and the counter semantics) it was created with, and the handle of a topic that
is not monotonic is the very handle of the bootstrap. -/
theorem kind_stability (ParseFloat : String → Float × Option NumError) (m : Meter)
    (msgs : List (String × String)) (t : String) :
    ((processAll ParseFloat (initInstruments m).1 msgs).instrumentMap t).isSome
      = ((initInstruments m).1.instrumentMap t).isSome ∧
    ((processAll ParseFloat (initInstruments m).1 msgs).instrumentMap t).map (fun i => i.kind)
      = ((initInstruments m).1.instrumentMap t).map (fun i => i.kind) ∧
    ((processAll ParseFloat (initInstruments m).1 msgs).instrumentMap t).map
        (fun i => (i.kind.isInteger, i.kind.isMonotonic))
      = ((initInstruments m).1.instrumentMap t).map
        (fun i => (i.kind.isInteger, i.kind.isMonotonic)) ∧
    (∀ i, (initInstruments m).1.instrumentMap t = some i → i.kind.isMonotonic = false →
      (processAll ParseFloat (initInstruments m).1 msgs).instrumentMap t = some i) := by
  obtain ⟨hk, hh⟩ := processAll_kinds ParseFloat msgs t (initInstruments m).1
  refine ⟨?_, hk, ?_, hh⟩
  · have := congrArg Option.isSome hk
    simpa using this
  · have := congrArg (Option.map fun k : InstrumentKind => (k.isInteger, k.isMonotonic)) hk
    simpa [Option.map_map, Function.comp] using this

/-- C16: in every state reached from the one left by `initInstruments` by any
sequence of `processSys` calls, a key of `currentInts` is one of the 19
registered topics and holds an integer handle, a key of `currentFloats` is one
of the 19 registered topics and holds a float handle, and no topic is a key of
both tables. -/
theorem last_value_matches_kind (ParseFloat : String → Float × Option NumError) (m : Meter)
    (msgs : List (String × String)) (t : String) :
    (∀ c, (processAll ParseFloat (initInstruments m).1 msgs).currentInts t = some c →
      t ∈ registeredTopics ∧
      ∃ i, (processAll ParseFloat (initInstruments m).1 msgs).instrumentMap t = some i
        ∧ i.kind.isInteger = true) ∧
    (∀ c, (processAll ParseFloat (initInstruments m).1 msgs).currentFloats t = some c →
      t ∈ registeredTopics ∧
      ∃ i, (processAll ParseFloat (initInstruments m).1 msgs).instrumentMap t = some i
        ∧ i.kind.isInteger = false) ∧
    ¬ (((processAll ParseFloat (initInstruments m).1 msgs).currentInts t).isSome = true ∧
       ((processAll ParseFloat (initInstruments m).1 msgs).currentFloats t).isSome = true) := by
  obtain ⟨hint, hfloat⟩ := processAll_tables ParseFloat msgs (initInstruments m).1
    (fun t c hc => absurd hc (by simp [initInstruments]))
    (fun t c hc => absurd hc (by simp [initInstruments]))
  have hreg : ∀ i, (processAll ParseFloat (initInstruments m).1 msgs).instrumentMap t = some i →
      t ∈ registeredTopics := by
    intro i hi
    by_contra hnot
    have hk := (processAll_kinds ParseFloat msgs t (initInstruments m).1).1
    rw [hi, initInstruments_unregistered m t hnot] at hk
    simp at hk
  refine ⟨?_, ?_, ?_⟩
  · intro c hc
    obtain ⟨i, hi, hkind⟩ := hint t c hc
    exact ⟨hreg i hi, i, hi, hkind⟩
  · intro c hc
    obtain ⟨i, hi, hkind⟩ := hfloat t c hc
    exact ⟨hreg i hi, i, hi, hkind⟩
  · rintro ⟨h1, h2⟩
    obtain ⟨c, hc⟩ := Option.isSome_iff_exists.mp h1
    obtain ⟨f, hf⟩ := Option.isSome_iff_exists.mp h2
    obtain ⟨i, hi, hkind⟩ := hint t c hc
    obtain ⟨j, hj, hjkind⟩ := hfloat t f hf
    rw [hi, Option.some.injEq] at hj
    rw [← hj, hkind] at hjkind
    exact absurd hjkind (by decide)

/-! ## Instrument names -/

/-- A line of the bootstrap that creates the instrument of `key` under the
name `"mqtt/" ++ key` keeps this: the meter returns handles of the same sort
as before, and every stored handle is of that sort and was created under
"mqtt/" followed by its key. -/
theorem register_handles (b : Bool)
    (acc : (String → Option Instrument) × Option String × Meter)
    (kind : InstrumentKind) (key name : String) (hname : name = "mqtt/" ++ key)
    (h : acc.2.2.sharedType = b ∧
      ∀ t i, acc.1 t = some i → i.sharedType = b ∧ i.name = "mqtt/" ++ t) :
    (register acc kind key name).2.2.sharedType = b ∧
    ∀ t i, (register acc kind key name).1 t = some i →
      i.sharedType = b ∧ i.name = "mqtt/" ++ t := by
  refine ⟨h.1, ?_⟩
  intro t i hi
  simp only [register, Meter.create] at hi
  by_cases ht : t = key
  · subst ht
    rw [setKey_same, Option.some.injEq] at hi
    rw [← hi]
    exact ⟨h.1, hname⟩
  · rw [setKey_other _ _ _ _ ht] at hi
    exact h.2 t i hi

/-- Every handle stored by `initInstruments` is of the sort the meter returns
and was created under "mqtt/" followed by its key, and the meter still returns
handles of the same sort afterwards. -/
theorem initInstruments_handles (m : Meter) :
    (initInstruments m).1.meter.sharedType = m.sharedType ∧
    ∀ t i, (initInstruments m).1.instrumentMap t = some i →
      i.sharedType = m.sharedType ∧ i.name = "mqtt/" ++ t := by
  have h : ((fun _ => none, none, m) :
      (String → Option Instrument) × Option String × Meter).2.2.sharedType = m.sharedType ∧
      ∀ t i, ((fun _ => none, none, m) :
        (String → Option Instrument) × Option String × Meter).1 t = some i →
        i.sharedType = m.sharedType ∧ i.name = "mqtt/" ++ t :=
    ⟨rfl, fun t i hi => absurd hi (by simp)⟩
  have h := register_handles _ _ .Int64UpDownCounter "clients/connected" "mqtt/clients/connected" (by decide) h
  have h := register_handles _ _ .Int64UpDownCounter "clients/disconnected" "mqtt/clients/disconnected" (by decide) h
  have h := register_handles _ _ .Int64UpDownCounter "clients/expired" "mqtt/clients/expired" (by decide) h
  have h := register_handles _ _ .Int64Counter "clients/maximum" "mqtt/clients/maximum" (by decide) h
  have h := register_handles _ _ .Int64UpDownCounter "clients/total" "mqtt/clients/total" (by decide) h
  have h := register_handles _ _ .Float64UpDownCounter "load/bytes/received/1min" "mqtt/load/bytes/received/1min" (by decide) h
  have h := register_handles _ _ .Float64UpDownCounter "load/bytes/sent/1min" "mqtt/load/bytes/sent/1min" (by decide) h
  have h := register_handles _ _ .Float64UpDownCounter "load/messages/received/1min" "mqtt/load/messages/received/1min" (by decide) h
  have h := register_handles _ _ .Float64UpDownCounter "load/messages/sent/1min" "mqtt/load/messages/sent/1min" (by decide) h
  have h := register_handles _ _ .Float64UpDownCounter "load/publish/dropped/1min" "mqtt/load/publish/dropped/1min" (by decide) h
  have h := register_handles _ _ .Float64UpDownCounter "load/publish/received/1min" "mqtt/load/publish/received/1min" (by decide) h
  have h := register_handles _ _ .Float64UpDownCounter "load/publish/sent/1min" "mqtt/load/publish/sent/1min" (by decide) h
  have h := register_handles _ _ .Float64UpDownCounter "load/sockets/1min" "mqtt/load/sockets/1min" (by decide) h
  have h := register_handles _ _ .Float64UpDownCounter "load/connections/1min" "mqtt/load/connections/1min" (by decide) h
  have h := register_handles _ _ .Int64UpDownCounter "heap/current" "mqtt/heap/current" (by decide) h
  have h := register_handles _ _ .Int64UpDownCounter "heap/maximum" "mqtt/heap/maximum" (by decide) h
  have h := register_handles _ _ .Int64UpDownCounter "store/messages/count" "mqtt/store/messages/count" (by decide) h
  have h := register_handles _ _ .Int64UpDownCounter "store/messages/bytes" "mqtt/store/messages/bytes" (by decide) h
  have h := register_handles _ _ .Int64UpDownCounter "subscriptions/count" "mqtt/subscriptions/count" (by decide) h
  exact h

/-- While every stored handle is of a type that implements both interfaces of
its numeric kind, one call of `processSys` leaves the registry and the meter
as they are: neither reset is reached. -/
theorem processSys_shared (ParseFloat : String → Float × Option NumError)
    (s : State) (topic payload : String)
    (hsh : ∀ t i, s.instrumentMap t = some i → i.sharedType = true) :
    (processSys ParseFloat s topic payload).1.instrumentMap = s.instrumentMap ∧
    (processSys ParseFloat s topic payload).1.meter = s.meter := by
  rcases (processSys_shape ParseFloat s topic payload).1 with h | ⟨i, hi, _, hsep, _⟩
  · exact h
  · rw [hsh topic i hi] at hsep
    exact absurd hsep (by decide)

theorem processAll_shared (ParseFloat : String → Float × Option NumError)
    (msgs : List (String × String)) :
    ∀ s : State, (∀ t i, s.instrumentMap t = some i → i.sharedType = true) →
    (processAll ParseFloat s msgs).instrumentMap = s.instrumentMap ∧
    (processAll ParseFloat s msgs).meter = s.meter := by
  induction msgs with
  | nil =>
    intro s _
    exact ⟨rfl, rfl⟩
  | cons m ms ih =>
    intro s hsh
    obtain ⟨hmap, hmeter⟩ := processSys_shared ParseFloat s m.1 m.2 hsh
    obtain ⟨imap, imeter⟩ := ih (processSys ParseFloat s m.1 m.2).1
      (fun t i hi => hsh t i (by rw [hmap] at hi; exact hi))
    simp only [processAll]
    exact ⟨imap.trans hmap, imeter.trans hmeter⟩

/-- With a meter whose handles are of a shared type, every handle of every
state reached from the one left by `initInstruments` is of a shared type, so
every integer handle takes the first case of the type switch and every float
handle the third. -/
theorem reachable_shared (ParseFloat : String → Float × Option NumError)
    (m : Meter) (hs : m.sharedType = true) (msgs : List (String × String))
    (t : String) (i : Instrument)
    (hi : (processAll ParseFloat (initInstruments m).1 msgs).instrumentMap t = some i) :
    i.sharedType = true ∧
    (i.kind.isInteger = true → typeSwitch i = some .Int64UpDownCounter) ∧
    (i.kind.isInteger = false → typeSwitch i = some .Float64UpDownCounter) := by
  obtain ⟨_, hinit⟩ := initInstruments_handles m
  obtain ⟨hmap, _⟩ := processAll_shared ParseFloat msgs (initInstruments m).1
    (fun t i hi => ((hinit t i hi).1).trans hs)
  rw [hmap] at hi
  have hsh : i.sharedType = true := ((hinit t i hi).1).trans hs
  exact ⟨hsh, fun hk => typeSwitch_shared_int i hk hsh,
    fun hk => typeSwitch_shared_float i hk hsh⟩

theorem mqtt_name_ne_key (t : String) : "mqtt/" ++ t ≠ t := by
  intro h
  have hl := congrArg String.length h
  rw [String.length_append] at hl
  have h5 : ("mqtt/" : String).length = 5 := by decide
  omega

/-- C14: with the meter of the running program, whose handles are of a type
that implements both interfaces of their numeric kind, in every state reached
from the one left by `initInstruments` by any sequence of `processSys` calls
(a decrease on the monotonic topic included), the handle a topic holds was
created under the name "mqtt/" followed by the topic's key, a name different
from the key; it is the very handle the bootstrap stored, and the meter has
created nothing since. -/
theorem instrument_names_differ (ParseFloat : String → Float × Option NumError)
    (m : Meter) (hs : m.sharedType = true)
    (msgs : List (String × String)) (t : String) (i : Instrument)
    (hi : (processAll ParseFloat (initInstruments m).1 msgs).instrumentMap t = some i) :
    i.name = "mqtt/" ++ t ∧
    i.name ≠ t ∧
    (initInstruments m).1.instrumentMap t = some i ∧
    (processAll ParseFloat (initInstruments m).1 msgs).meter.created
      = (initInstruments m).1.meter.created := by
  obtain ⟨_, hinit⟩ := initInstruments_handles m
  obtain ⟨hmap, hmeter⟩ := processAll_shared ParseFloat msgs (initInstruments m).1
    (fun t i hi => ((hinit t i hi).1).trans hs)
  rw [hmap] at hi
  have hname := (hinit t i hi).2
  refine ⟨hname, ?_, hi, by rw [hmeter]⟩
  rw [hname]
  exact mqtt_name_ne_key t

/-- The example of C14: after "10","12","12","7" on "clients/maximum", where
`7 < 12`, the topic holds the handle created as "mqtt/clients/maximum", and
that name is not the key "clients/maximum". -/
theorem instrument_names_differ_witness :
    (processAll rejectFloat (initInstruments freshMeter).1
        [("clients/maximum", "10"), ("clients/maximum", "12"), ("clients/maximum", "12"),
         ("clients/maximum", "7")]).instrumentMap "clients/maximum"
      = some ⟨.Int64Counter, "mqtt/clients/maximum", 3, true⟩ ∧
    (⟨.Int64Counter, "mqtt/clients/maximum", 3, true⟩ : Instrument).name
      = "mqtt/" ++ "clients/maximum" ∧
    (⟨.Int64Counter, "mqtt/clients/maximum", 3, true⟩ : Instrument).name ≠ "clients/maximum" :=
  ⟨by decide,
   (instrument_names_differ rejectFloat freshMeter rfl
      [("clients/maximum", "10"), ("clients/maximum", "12"), ("clients/maximum", "12"),
       ("clients/maximum", "7")] "clients/maximum"
      ⟨.Int64Counter, "mqtt/clients/maximum", 3, true⟩ (by decide)).1,
   (instrument_names_differ rejectFloat freshMeter rfl
      [("clients/maximum", "10"), ("clients/maximum", "12"), ("clients/maximum", "12"),
       ("clients/maximum", "7")] "clients/maximum"
      ⟨.Int64Counter, "mqtt/clients/maximum", 3, true⟩ (by decide)).2.1⟩

/-! ## The telescoping sum on a monotonic topic, handle by handle -/

theorem intAddsOn_fresh (h : Instrument) (adds : List AddCall)
    (hall : ∀ a ∈ adds, a.instrument.serial < h.serial) : intAddsOn h adds = [] := by
  induction adds with
  | nil => rfl
  | cons a as ih =>
    obtain ⟨i, val⟩ := a
    have hne : i ≠ h := by
      intro heq
      have := hall ⟨i, val⟩ (List.mem_cons_self _ _)
      rw [heq] at this
      exact absurd this (lt_irrefl _)
    have ih' := ih (fun b hb => hall b (List.mem_cons_of_mem _ hb))
    cases val with
    | int v => simp [intAddsOn, hne, ih']
    | float v => simpa [intAddsOn] using ih'

/-- One successful step on a monotonic integer topic under a meter whose
handles are of separate types, where the second case of the switch runs.
Given that the topic holds a handle created as `Int64Counter`, of a type that
implements nothing else, and that the topic's handle and every handle in the
record of `Add` have an ordinal below the meter's count, the same holds
afterwards and the value becomes the last value; if the total of the topic's
handle was the last value modulo `2^64` (`0` before the first observation) it
is so again; and if it was exactly the last value it is so again, provided
`v - c` fits when the step is no reset. -/
theorem counter_step_total (ParseFloat : String → Float × Option NumError)
    (s : State) (topic p : String) (h : Instrument) (v : Int)
    (hi : s.instrumentMap topic = some h) (hk : h.kind = .Int64Counter)
    (hsep : h.sharedType = false) (hm : s.meter.sharedType = false)
    (hs : h.serial < s.meter.created)
    (ha : ∀ a ∈ s.adds, a.instrument.serial < s.meter.created)
    (hp : ParseInt p = (v, none)) :
    ∃ h', (processSys ParseFloat s topic p).1.instrumentMap topic = some h' ∧
      h'.kind = .Int64Counter ∧
      h'.sharedType = false ∧
      (processSys ParseFloat s topic p).1.meter.sharedType = false ∧
      h'.serial < (processSys ParseFloat s topic p).1.meter.created ∧
      (∀ a ∈ (processSys ParseFloat s topic p).1.adds,
        a.instrument.serial < (processSys ParseFloat s topic p).1.meter.created) ∧
      (processSys ParseFloat s topic p).1.currentInts topic = some v ∧
      ((intAddsOn h s.adds).sum ≡ (s.currentInts topic).getD 0 [ZMOD 2 ^ 64] →
        (intAddsOn h' (processSys ParseFloat s topic p).1.adds).sum ≡ v [ZMOD 2 ^ 64]) ∧
      (((s.currentInts topic).getD 0 ≤ v → v - (s.currentInts topic).getD 0 < 2 ^ 63) →
        (intAddsOn h s.adds).sum = (s.currentInts topic).getD 0 →
        (intAddsOn h' (processSys ParseFloat s topic p).1.adds).sum = v) := by
  have hvr := ParseInt_inInt64 hp
  have hts : typeSwitch h = some .Int64Counter := typeSwitch_counter h hk hsep
  cases hc : s.currentInts topic with
  | none =>
    rw [step_int_first ParseFloat s topic p h v hi (Or.inr hts) hc hp]
    refine ⟨h, hi, hk, hsep, hm, hs, ?_, setKey_same _ _ _, ?_, ?_⟩
    · intro a hmem
      simp only [List.mem_append, List.mem_singleton] at hmem
      rcases hmem with hmem | hmem
      · exact ha a hmem
      · rw [hmem]; exact hs
    · intro hmod
      simp only [Option.getD_none] at hmod
      simp only [intAddsOn_append, intAddsOn, if_true, List.sum_append, List.sum_cons,
        List.sum_nil, add_zero]
      have := hmod.add_right v
      simpa using this
    · intro _ hsum
      simp only [Option.getD_none] at hsum
      simp only [intAddsOn_append, intAddsOn, if_true, List.sum_append, List.sum_cons,
        List.sum_nil, add_zero, hsum, zero_add]
  | some c =>
    by_cases hlt : v < c
    · rw [step_counter_reset ParseFloat s topic p h c v hi hts hc hp hlt]
      have hfresh : intAddsOn ⟨.Int64Counter, topic, s.meter.created, s.meter.sharedType⟩ s.adds = [] :=
        intAddsOn_fresh _ _ ha
      have hsum : (intAddsOn ⟨.Int64Counter, topic, s.meter.created, s.meter.sharedType⟩
          (s.adds ++ [⟨⟨.Int64Counter, topic, s.meter.created, s.meter.sharedType⟩, .int v⟩])).sum = v := by
        simp [intAddsOn_append, hfresh, intAddsOn]
      refine ⟨⟨.Int64Counter, topic, s.meter.created, s.meter.sharedType⟩, setKey_same _ _ _, rfl,
        hm, hm, Nat.lt_succ_self _, ?_, setKey_same _ _ _, ?_, ?_⟩
      · intro a hmem
        simp only [List.mem_append, List.mem_singleton] at hmem
        rcases hmem with hmem | hmem
        · exact Nat.lt_succ_of_lt (ha a hmem)
        · rw [hmem]; exact Nat.lt_succ_self _
      · intro _
        rw [hsum]
      · intro _ _
        exact hsum
    · have hle : c ≤ v := not_lt.mp hlt
      rw [step_counter_forward ParseFloat s topic p h c v hi hts hc hp hle]
      refine ⟨h, hi, hk, hsep, hm, hs, ?_, setKey_same _ _ _, ?_, ?_⟩
      · intro a hmem
        simp only [List.mem_append, List.mem_singleton] at hmem
        rcases hmem with hmem | hmem
        · exact ha a hmem
        · rw [hmem]; exact hs
      · intro hmod
        simp only [Option.getD_some] at hmod
        have h1 := wrapInt64_modEq (v - c)
        simp only [intAddsOn_append, intAddsOn, List.sum_append, List.sum_cons, List.sum_nil,
          if_true, subInt64, add_zero]
        have h2 := hmod.add h1
        have h3 : c + (v - c) = v := by ring
        rw [h3] at h2
        exact h2
      · intro hfit hsum
        simp only [Option.getD_some] at hfit hsum
        have hin : InInt64 (v - c) := by
          unfold InInt64
          have := hfit hle
          constructor <;> omega
        simp only [intAddsOn_append, intAddsOn, List.sum_append, List.sum_cons, List.sum_nil,
          if_true, subInt64, add_zero, wrapInt64_eq_self hin, hsum]
        ring

theorem deliver_cons (ParseFloat : String → Float × Option NumError) (s : State)
    (topic p : String) (ps : List String) :
    deliver ParseFloat s topic (p :: ps)
      = deliver ParseFloat (processSys ParseFloat s topic p).1 topic ps := rfl

/-- Delivery of payloads that all parse to a monotonic integer topic under a
meter whose handles are of separate types: the facts of `counter_step_total`,
carried along the sequence. -/
theorem counter_deliver_total (ParseFloat : String → Float × Option NumError)
    (topic : String) (ps : List String) :
    ∀ (s : State) (h : Instrument), s.instrumentMap topic = some h →
    h.kind = .Int64Counter → h.sharedType = false → s.meter.sharedType = false →
    h.serial < s.meter.created →
    (∀ a ∈ s.adds, a.instrument.serial < s.meter.created) →
    (∀ p ∈ ps, (ParseInt p).2 = none) →
    ∃ h', (deliver ParseFloat s topic ps).instrumentMap topic = some h' ∧
      h'.kind = .Int64Counter ∧
      (∀ hne : ps ≠ [], (deliver ParseFloat s topic ps).currentInts topic
        = some (ParseInt (ps.getLast hne)).1) ∧
      ((intAddsOn h s.adds).sum ≡ (s.currentInts topic).getD 0 [ZMOD 2 ^ 64] →
        (intAddsOn h' (deliver ParseFloat s topic ps).adds).sum
          ≡ ((deliver ParseFloat s topic ps).currentInts topic).getD 0 [ZMOD 2 ^ 64]) ∧
      (List.Chain (fun a b => a ≤ b → b - a < 2 ^ 63) ((s.currentInts topic).getD 0)
          (ps.map fun p => (ParseInt p).1) →
        (intAddsOn h s.adds).sum = (s.currentInts topic).getD 0 →
        (intAddsOn h' (deliver ParseFloat s topic ps).adds).sum
          = ((deliver ParseFloat s topic ps).currentInts topic).getD 0) := by
  induction ps with
  | nil =>
    intro s h hi hk _ _ _ _ _
    exact ⟨h, hi, hk, fun hne => absurd rfl hne, fun hm => hm, fun _ hs => hs⟩
  | cons p ps ih =>
    intro s h hi hk hsep hm hs ha hall
    have hp := ParseInt_eta (hall p (List.mem_cons_self _ _))
    obtain ⟨h1, hi1, hk1, hsep1, hm1, hs1, ha1, hc1, hmod1, hex1⟩ :=
      counter_step_total ParseFloat s topic p h _ hi hk hsep hm hs ha hp
    obtain ⟨h2, hi2, hk2, hlast2, hmod2, hex2⟩ :=
      ih (processSys ParseFloat s topic p).1 h1 hi1 hk1 hsep1 hm1 hs1 ha1
        (fun q hq => hall q (List.mem_cons_of_mem _ hq))
    rw [hc1] at hmod2 hex2
    simp only [Option.getD_some] at hmod2 hex2
    rw [deliver_cons]
    refine ⟨h2, hi2, hk2, ?_, fun hm => hmod2 (hmod1 hm), ?_⟩
    · intro hne
      by_cases hps : ps = []
      · subst hps
        exact hc1
      · rw [List.getLast_cons hps]
        exact hlast2 hps
    · intro hchain hsum
      simp only [List.map_cons, List.chain_cons] at hchain
      exact hex2 hchain.2 (hex1 hchain.1 hsum)

/-- A line of the bootstrap keeps every stored handle's ordinal below the
meter's count. -/
theorem register_serial (acc : (String → Option Instrument) × Option String × Meter)
    (kind : InstrumentKind) (key name : String)
    (h : ∀ t i, acc.1 t = some i → i.serial < acc.2.2.created) :
    ∀ t i, (register acc kind key name).1 t = some i →
      i.serial < (register acc kind key name).2.2.created := by
  intro t i hi
  simp only [register, Meter.create] at hi ⊢
  by_cases ht : t = key
  · subst ht
    rw [setKey_same, Option.some.injEq] at hi
    rw [← hi]
    exact Nat.lt_succ_self _
  · rw [setKey_other _ _ _ _ ht] at hi
    exact Nat.lt_succ_of_lt (h t i hi)

/-- Every handle stored by `initInstruments` has an ordinal below the meter's
count afterwards. -/
theorem initInstruments_serial (m : Meter) (t : String) (i : Instrument)
    (hi : (initInstruments m).1.instrumentMap t = some i) :
    i.serial < (initInstruments m).1.meter.created := by
  have h : ∀ t i, ((fun _ => none, none, m) :
      (String → Option Instrument) × Option String × Meter).1 t = some i →
      i.serial < ((fun _ => none, none, m) :
        (String → Option Instrument) × Option String × Meter).2.2.created := by
    intro t i hi
    exact absurd hi (by simp)
  have h := register_serial _ .Int64UpDownCounter "clients/connected" "mqtt/clients/connected" h
  have h := register_serial _ .Int64UpDownCounter "clients/disconnected" "mqtt/clients/disconnected" h
  have h := register_serial _ .Int64UpDownCounter "clients/expired" "mqtt/clients/expired" h
  have h := register_serial _ .Int64Counter "clients/maximum" "mqtt/clients/maximum" h
  have h := register_serial _ .Int64UpDownCounter "clients/total" "mqtt/clients/total" h
  have h := register_serial _ .Float64UpDownCounter "load/bytes/received/1min" "mqtt/load/bytes/received/1min" h
  have h := register_serial _ .Float64UpDownCounter "load/bytes/sent/1min" "mqtt/load/bytes/sent/1min" h
  have h := register_serial _ .Float64UpDownCounter "load/messages/received/1min" "mqtt/load/messages/received/1min" h
  have h := register_serial _ .Float64UpDownCounter "load/messages/sent/1min" "mqtt/load/messages/sent/1min" h
  have h := register_serial _ .Float64UpDownCounter "load/publish/dropped/1min" "mqtt/load/publish/dropped/1min" h
  have h := register_serial _ .Float64UpDownCounter "load/publish/received/1min" "mqtt/load/publish/received/1min" h
  have h := register_serial _ .Float64UpDownCounter "load/publish/sent/1min" "mqtt/load/publish/sent/1min" h
  have h := register_serial _ .Float64UpDownCounter "load/sockets/1min" "mqtt/load/sockets/1min" h
  have h := register_serial _ .Float64UpDownCounter "load/connections/1min" "mqtt/load/connections/1min" h
  have h := register_serial _ .Int64UpDownCounter "heap/current" "mqtt/heap/current" h
  have h := register_serial _ .Int64UpDownCounter "heap/maximum" "mqtt/heap/maximum" h
  have h := register_serial _ .Int64UpDownCounter "store/messages/count" "mqtt/store/messages/count" h
  have h := register_serial _ .Int64UpDownCounter "store/messages/bytes" "mqtt/store/messages/bytes" h
  have h := register_serial _ .Int64UpDownCounter "subscriptions/count" "mqtt/subscriptions/count" h
  exact h t i hi

theorem chain_start_zero (ps : List String) (hall : ∀ p ∈ ps, (ParseInt p).2 = none)
    (hchain : List.Chain' (fun a b : Int => InInt64 (b - a)) (ps.map fun p => (ParseInt p).1)) :
    List.Chain (fun a b : Int => InInt64 (b - a)) 0 (ps.map fun p => (ParseInt p).1) := by
  cases ps with
  | nil => exact List.Chain.nil
  | cons p ps =>
    simp only [List.map_cons, List.chain_cons]
    refine ⟨?_, hchain⟩
    simpa using ParseInt_inInt64 (ParseInt_eta (hall p (List.mem_cons_self _ _)))

/-- The differences of consecutive values fit in an `int64` when no value is
negative. -/
theorem chain_of_nonneg (vs : List Int) (hbound : ∀ v ∈ vs, 0 ≤ v ∧ v < 2 ^ 63) :
    List.Chain' (fun a b : Int => InInt64 (b - a)) vs := by
  induction vs with
  | nil => exact List.chain'_nil
  | cons a as ih =>
    rw [List.chain'_cons']
    refine ⟨?_, ih (fun v hv => hbound v (List.mem_cons_of_mem _ hv))⟩
    intro b hb
    have hbm : b ∈ as := List.mem_of_mem_head? hb
    have h1 := hbound a (List.mem_cons_self _ _)
    have h2 := hbound b (List.mem_cons_of_mem _ hbm)
    unfold InInt64
    constructor <;> omega

/-- C15, as stated, fails: on the monotonic topic "clients/maximum" the
payloads "-9223372036854775808" and "9223372036854775807" both parse, the
topic keeps its bootstrap handle, the values added to it are `-2^63` and `-1`,
and their sum is not `currentInts[topic] = 2^63 - 1`.  The same happens on a
decrease: after "9223372036854775807" and "-9223372036854775808" the values
added to the bootstrap handle are `2^63 - 1` and `1`, and their sum is not
`currentInts[topic] = -2^63`. -/
theorem telescoping_sum_monotonic_counterexample :
    (deliver rejectFloat initState "clients/maximum"
        ["-9223372036854775808", "9223372036854775807"]).instrumentMap "clients/maximum"
      = initState.instrumentMap "clients/maximum" ∧
    (deliver rejectFloat initState "clients/maximum"
        ["-9223372036854775808", "9223372036854775807"]).currentInts "clients/maximum"
      = some 9223372036854775807 ∧
    (intAddsOn ⟨.Int64Counter, "mqtt/clients/maximum", 3, true⟩
        (deliver rejectFloat initState "clients/maximum"
          ["-9223372036854775808", "9223372036854775807"]).adds).sum
      = -9223372036854775809 ∧
    (-9223372036854775809 : Int) ≠ 9223372036854775807 ∧
    (deliver rejectFloat initState "clients/maximum"
        ["9223372036854775807", "-9223372036854775808"]).instrumentMap "clients/maximum"
      = some ⟨.Int64Counter, "mqtt/clients/maximum", 3, true⟩ ∧
    (deliver rejectFloat initState "clients/maximum"
        ["9223372036854775807", "-9223372036854775808"]).currentInts "clients/maximum"
      = some (-9223372036854775808) ∧
    intAddsOn ⟨.Int64Counter, "mqtt/clients/maximum", 3, true⟩
        (deliver rejectFloat initState "clients/maximum"
          ["9223372036854775807", "-9223372036854775808"]).adds
      = [9223372036854775807, 1] ∧
    (9223372036854775807 + 1 : Int) ≠ -9223372036854775808 := by
  decide

/-- C15, amended: after a non-empty sequence of payloads that all parse as
`int64` has been delivered, from the state left by `initInstruments`, to a
monotonic integer topic, the sum of all values added to the handle the topic
holds now, reduced modulo `2^64` into the `int64` range, is
`currentInts[topic]`, the last value delivered; and the sum is exactly
`currentInts[topic]` whenever the difference of every two consecutive values
fits in an `int64`, in particular whenever no payload is negative.  With the
meter of the running program, whose handles are of a type that implements both
integer interfaces, the handle the topic holds is the one of the bootstrap. -/
theorem telescoping_sum_monotonic (ParseFloat : String → Float × Option NumError)
    (m : Meter) (topic : String) (i : Instrument)
    (hi : (initInstruments m).1.instrumentMap topic = some i)
    (hk : i.kind = .Int64Counter)
    (ps : List String) (hne : ps ≠ [])
    (hall : ∀ p ∈ ps, (ParseInt p).2 = none) :
    ∃ h, (deliver ParseFloat (initInstruments m).1 topic ps).instrumentMap topic = some h ∧
      (deliver ParseFloat (initInstruments m).1 topic ps).currentInts topic
        = some (ParseInt (ps.getLast hne)).1 ∧
      wrapInt64 (intAddsOn h (deliver ParseFloat (initInstruments m).1 topic ps).adds).sum
        = (ParseInt (ps.getLast hne)).1 ∧
      (List.Chain' (fun a b => InInt64 (b - a)) (ps.map fun p => (ParseInt p).1) →
        (intAddsOn h (deliver ParseFloat (initInstruments m).1 topic ps).adds).sum
          = (ParseInt (ps.getLast hne)).1) ∧
      ((∀ p ∈ ps, 0 ≤ (ParseInt p).1) →
        (intAddsOn h (deliver ParseFloat (initInstruments m).1 topic ps).adds).sum
          = (ParseInt (ps.getLast hne)).1) ∧
      (m.sharedType = true → h = i) := by
  obtain ⟨hmeter, hinit⟩ := initInstruments_handles m
  have hshi : i.sharedType = m.sharedType := (hinit topic i hi).1
  have hz : ((initInstruments m).1.currentInts topic).getD 0 = 0 := rfl
  have hstart : (intAddsOn i (initInstruments m).1.adds).sum = 0 := rfl
  have hgen : ∃ h,
      (deliver ParseFloat (initInstruments m).1 topic ps).instrumentMap topic = some h ∧
      (deliver ParseFloat (initInstruments m).1 topic ps).currentInts topic
        = some (ParseInt (ps.getLast hne)).1 ∧
      ((intAddsOn h (deliver ParseFloat (initInstruments m).1 topic ps).adds).sum
        ≡ (ParseInt (ps.getLast hne)).1 [ZMOD 2 ^ 64]) ∧
      (List.Chain' (fun a b => InInt64 (b - a)) (ps.map fun p => (ParseInt p).1) →
        (intAddsOn h (deliver ParseFloat (initInstruments m).1 topic ps).adds).sum
          = (ParseInt (ps.getLast hne)).1) ∧
      (m.sharedType = true → h = i) := by
    rcases Bool.eq_false_or_eq_true m.sharedType with hb | hb
    · have hts : typeSwitch i = some .Int64UpDownCounter :=
        typeSwitch_shared_int i (by rw [hk]; rfl) (hshi.trans hb)
      obtain ⟨hmap, hmod, hex⟩ :=
        updown_deliver_facts ParseFloat topic i hts ps (initInstruments m).1 hi hall
      have hcur := updown_deliver_last ParseFloat (initInstruments m).1 topic i hi hts ps hne hall
      rw [hcur, hz, hstart] at hmod hex
      simp only [Option.getD_some] at hmod hex
      refine ⟨i, by rw [hmap]; exact hi, hcur, ?_, ?_, fun _ => rfl⟩
      · have := hmod.add_right (ParseInt (ps.getLast hne)).1
        simpa using this
      · intro hchain
        have := hex (chain_start_zero ps hall hchain)
        omega
    · have hserial : i.serial < (initInstruments m).1.meter.created :=
        initInstruments_serial m topic i hi
      obtain ⟨h, hmap, _, hlast, hmod, hex⟩ :=
        counter_deliver_total ParseFloat topic ps (initInstruments m).1 i hi hk
          (hshi.trans hb) (hmeter.trans hb) hserial
          (fun a ha => absurd ha (by simp [initInstruments])) hall
      have hcur := hlast hne
      rw [hcur, hz, hstart] at hmod hex
      simp only [Option.getD_some] at hmod hex
      refine ⟨h, hmap, hcur, hmod (Int.ModEq.refl _), ?_,
        fun hc => absurd (hb.symm.trans hc) (by decide)⟩
      intro hchain
      refine hex ?_ trivial
      refine List.Chain.imp ?_ (chain_start_zero ps hall hchain)
      intro a b hab _
      exact hab.2
  obtain ⟨h, hmap, hcur, hmod, hex, hboot⟩ := hgen
  refine ⟨h, hmap, hcur, ?_, hex, ?_, hboot⟩
  · rw [wrapInt64_congr hmod]
    exact wrapInt64_eq_self (ParseInt_inInt64 (ParseInt_eta (hall _ (List.getLast_mem hne))))
  · intro hnn
    apply hex
    apply chain_of_nonneg
    intro v hv
    obtain ⟨p, hp, rfl⟩ := List.mem_map.mp hv
    exact ⟨hnn p hp, (ParseInt_inInt64 (ParseInt_eta (hall p hp))).2⟩

/-- The example of C15, on the meter of the running program: "10","12","12","7"
on "clients/maximum" leaves the topic with its bootstrap handle, to which
`+10, +2, +0, -5` have been added; their sum is `7`, and `currentInts` holds
`7`. -/
theorem telescoping_sum_monotonic_witness :
    (deliver rejectFloat (initInstruments freshMeter).1 "clients/maximum"
        ["10", "12", "12", "7"]).instrumentMap "clients/maximum"
      = some ⟨.Int64Counter, "mqtt/clients/maximum", 3, true⟩ ∧
    intAddsOn ⟨.Int64Counter, "mqtt/clients/maximum", 3, true⟩
        (deliver rejectFloat (initInstruments freshMeter).1 "clients/maximum"
          ["10", "12", "12", "7"]).adds = [10, 2, 0, -5] ∧
    (deliver rejectFloat (initInstruments freshMeter).1 "clients/maximum"
        ["10", "12", "12", "7"]).currentInts "clients/maximum" = some (ParseInt "7").1 ∧
    ∃ h, (deliver rejectFloat (initInstruments freshMeter).1 "clients/maximum"
          ["10", "12", "12", "7"]).instrumentMap "clients/maximum" = some h ∧
      h = ⟨.Int64Counter, "mqtt/clients/maximum", 3, true⟩ ∧
      (intAddsOn h (deliver rejectFloat (initInstruments freshMeter).1 "clients/maximum"
          ["10", "12", "12", "7"]).adds).sum = (ParseInt "7").1 := by
  obtain ⟨h, hmap, hcur, _, _, hnn, hboot⟩ :=
    telescoping_sum_monotonic rejectFloat freshMeter "clients/maximum"
      ⟨.Int64Counter, "mqtt/clients/maximum", 3, true⟩ (by decide) rfl
      ["10", "12", "12", "7"] (by decide) (by decide)
  exact ⟨by decide, by decide, hcur, h, hmap, hboot rfl, hnn (by decide)⟩

/-! ## The 64-bit wrap of the delta -/

/-- C20: on an integer topic whose handle `i` takes the first case of the type
switch (a handle created as `Int64UpDownCounter`, or one of a type that
implements both integer interfaces, as every integer handle of the running
program is), with recorded last value `c`, for every payload that parses to
`v`, `processSys` calls `Add` once, on `i`, with `v - c` reduced modulo `2^64`
into the `int64` range, which is the exact difference `v - c` if and only if
`-2^63 <= v - c < 2^63`; so over any sequence of payloads that parse, the sum
of the values passed to `Add` keeps its distance to the last value only
modulo `2^64`. -/
theorem delta_wrap (ParseFloat : String → Float × Option NumError)
    (s : State) (topic payload : String) (i : Instrument) (c v : Int)
    (hi : s.instrumentMap topic = some i)
    (hk : i.kind = .Int64UpDownCounter ∨ i.kind = .Int64Counter)
    (hcase : i.kind = .Int64UpDownCounter ∨ i.sharedType = true)
    (hc : s.currentInts topic = some c) (hp : ParseInt payload = (v, none)) :
    processSys ParseFloat s topic payload
      = ({ s with adds := s.adds ++ [⟨i, .int (wrapInt64 (v - c))⟩],
                  currentInts := setKey s.currentInts topic v }, none) ∧
    InInt64 (wrapInt64 (v - c)) ∧
    (wrapInt64 (v - c) ≡ v - c [ZMOD 2 ^ 64]) ∧
    (wrapInt64 (v - c) = v - c ↔ InInt64 (v - c)) ∧
    (∀ ps : List String, (∀ p ∈ ps, (ParseInt p).2 = none) →
      (intAddsOn i (deliver ParseFloat s topic ps).adds).sum
          - ((deliver ParseFloat s topic ps).currentInts topic).getD 0
        ≡ (intAddsOn i s.adds).sum - c [ZMOD 2 ^ 64]) := by
  have hts : typeSwitch i = some .Int64UpDownCounter := by
    rcases hcase with hcase | hcase
    · exact typeSwitch_updown i hcase
    · exact typeSwitch_shared_int i ((isInteger_true_iff i.kind).mpr hk) hcase
  refine ⟨?_, wrapInt64_inInt64 _, wrapInt64_modEq _, wrapInt64_eq_self_iff _, ?_⟩
  · rw [step_updown ParseFloat s topic payload i c v hi hts hc hp]
    rfl
  · intro ps hall
    have h := (updown_deliver_facts ParseFloat topic i hts ps s hi hall).2.1
    rw [hc] at h
    exact h

/-- The examples of C20.  On the bidirectional topic "clients/connected" with
recorded last value `-2^63`, the payload "9223372036854775807" passes `-1` to
`Add`, not `2^64 - 1`, and `v - c` does not fit in an `int64`; the two values
passed sum to `-2^63 - 1`, which is the last value `2^63 - 1` only modulo
`2^64`.  On the monotonic topic "clients/maximum" with recorded last value
`10`, the payload "7" passes `7 - 10 = -3` to the bootstrap handle. -/
theorem delta_wrap_witness :
    (deliver rejectFloat initState "clients/connected"
        ["-9223372036854775808"]).currentInts "clients/connected"
      = some (-9223372036854775808) ∧
    (processSys rejectFloat
        (deliver rejectFloat initState "clients/connected" ["-9223372036854775808"])
        "clients/connected" "9223372036854775807").1.adds
      = (deliver rejectFloat initState "clients/connected" ["-9223372036854775808"]).adds
          ++ [⟨⟨.Int64UpDownCounter, "mqtt/clients/connected", 0, true⟩, .int (-1)⟩] ∧
    ¬ InInt64 (9223372036854775807 - (-9223372036854775808)) ∧
    (-1 : Int) ≠ 2 ^ 64 - 1 ∧
    (-9223372036854775808 + -1 : Int) ≠ 9223372036854775807 ∧
    (-9223372036854775808 + -1 ≡ 9223372036854775807 [ZMOD 2 ^ 64]) ∧
    (processSys rejectFloat (deliver rejectFloat initState "clients/maximum" ["10"])
        "clients/maximum" "7").1.adds
      = (deliver rejectFloat initState "clients/maximum" ["10"]).adds
          ++ [⟨⟨.Int64Counter, "mqtt/clients/maximum", 3, true⟩, .int (-3)⟩] := by
  have h := delta_wrap rejectFloat
    (deliver rejectFloat initState "clients/connected" ["-9223372036854775808"])
    "clients/connected" "9223372036854775807"
    ⟨.Int64UpDownCounter, "mqtt/clients/connected", 0, true⟩ (-9223372036854775808)
    9223372036854775807 (by decide) (Or.inl rfl) (Or.inl rfl) (by decide) (by decide)
  have h2 := delta_wrap rejectFloat
    (deliver rejectFloat initState "clients/maximum" ["10"])
    "clients/maximum" "7"
    ⟨.Int64Counter, "mqtt/clients/maximum", 3, true⟩ 10 7
    (by decide) (Or.inr rfl) (Or.inr rfl) (by decide) (by decide)
  refine ⟨by decide, ?_, by decide, by decide, by decide, by decide, ?_⟩
  · rw [h.1]
    rfl
  · rw [h2.1]
    rfl

end Mosquitto
